import Mathlib

/-!
# Verification of the Prometheus Genesis Engine core

Shallow embedding of the Genesis pipeline of the Prometheus framework
(`prometheus/genesis_engine/`): schema extraction heuristics, idempotent graph
materialization (Neo4j merge semantics are modelled as keyed association-list
stores), enrichment selection and orchestration, the data profiler, cost
estimation, seeded sampling and LLM-response parsing.  Each definition is
translated from the corresponding Python source; theorems settle the frozen
claims about the specification.
-/

namespace Prometheus

/-! ## Data model (`prometheus/genesis_engine/models.py`) -/

/-- `ColumnSchema` from `models.py`. -/
structure ColumnSchema where
  name : String
  data_type : String
  is_nullable : Bool
  comment : Option String := none
deriving DecidableEq, Repr

/-- `ForeignKeySchema` from `models.py`. -/
structure ForeignKeySchema where
  constrained_columns : List String
  referred_schema : String
  referred_table : String
  referred_columns : List String
  on_update : Option String := none
  on_delete : Option String := none
deriving DecidableEq, Repr

/-- `TableSchema` from `models.py`.  The `unique_constraints` and `indexes`
fields hold dictionaries in the source; the loader only reads their `name`
entries, so they are modelled by those names. -/
structure TableSchema where
  schema_name : String
  table_name : String
  columns : List ColumnSchema
  foreign_keys : List ForeignKeySchema := []
  primary_key : List String := []
  unique_constraints : List String := []
  indexes : List String := []
  is_junction_table : Bool := false
  comment : Option String := none
deriving DecidableEq, Repr

/-- `DatabaseSchema` from `models.py`. -/
structure DatabaseSchema where
  tables : List TableSchema := []
deriving DecidableEq, Repr

/-! ## Keyed stores with merge semantics

Neo4j `MERGE` keyed by a unique identifier is modelled on association lists:
an existing key is updated in place (`ON MATCH`), an absent key is appended
(`ON CREATE`).  `mergeAL onMatch onCreate` is the generic one-row merge. -/

/-- The key list of an association list (node/edge identities in the graph). -/
def akeys {K V : Type} (l : List (K × V)) : List K := l.map Prod.fst

/-- One `MERGE` step: if key `k` exists, every row with that key is rewritten
by `onMatch`; otherwise `(k, onCreate a)` is appended. -/
def mergeAL {K V A : Type} [DecidableEq K] (onMatch : A → V → V) (onCreate : A → V)
    (l : List (K × V)) (k : K) (a : A) : List (K × V) :=
  if k ∈ akeys l then
    l.map (fun kv => if kv.1 = k then (kv.1, onMatch a kv.2) else kv)
  else l ++ [(k, onCreate a)]

/-- Folding a batch of `MERGE` rows (an `UNWIND` over `items`). -/
def foldMerge {K V A : Type} [DecidableEq K] (onMatch : A → V → V) (onCreate : A → V)
    (items : List (K × A)) (l : List (K × V)) : List (K × V) :=
  items.foldl (fun acc it => mergeAL onMatch onCreate acc it.1 it.2) l

/-- First row with key `k` (Neo4j property lookup of the unique node/edge). -/
def alookup {K V : Type} [DecidableEq K] (k : K) : List (K × V) → Option V
  | [] => none
  | kv :: rest => if kv.1 = k then some kv.2 else alookup k rest

/-- Number of rows carrying key `k`. -/
def countKey {K V : Type} [DecidableEq K] (k : K) (l : List (K × V)) : Nat :=
  (l.filter (fun kv => kv.1 = k)).length

/-! ## Graph state and `SchemaLoader` (`prometheus/genesis_engine/loader.py`) -/

/-- Properties written onto a `:Table` node by `_create_all_nodes`; the
`is_junction` flag models the sticky `:JunctionTable` label (the `FOREACH`
only ever adds the label, never removes it). -/
structure TableProps where
  schema : String
  comment : Option String
  primary_key : List String
  unique_constraints : List String
  indexes : List String
  is_junction : Bool
deriving DecidableEq, Repr

/-- Properties written onto a `:Column` node by `_create_all_nodes`. -/
structure ColumnProps where
  table_name : String
  data_type : String
  is_nullable : Bool
  comment : Option String
  is_primary_key : Bool
deriving DecidableEq, Repr

/-- Properties carried by an `[:EXPLICIT_FK_TO]` edge. -/
structure FKProps where
  constrained_columns : List String
  referred_columns : List String
  on_update : Option String
  on_delete : Option String
deriving DecidableEq, Repr

/-- The structural part of the knowledge graph: `:Table` and `:Column` nodes
keyed by name, `HAS_COLUMN` edges (no properties) and `EXPLICIT_FK_TO` edges
keyed by the ordered (source, target) table pair. -/
structure GraphState where
  tableNodes : List (String × TableProps)
  columnNodes : List (String × ColumnProps)
  hasColumnEdges : List (String × String)
  fkEdges : List ((String × String) × FKProps)
deriving Repr

/-- The empty graph (state after `_clear_database`). -/
def emptyGraph : GraphState := ⟨[], [], [], []⟩

/-- Property payload of the `SET t.… = table_data.…` clause of
`_create_all_nodes`; `is_junction` is the label request carried by the row. -/
def tablePropsOf (t : TableSchema) : TableProps :=
  { schema := t.schema_name
    comment := t.comment
    primary_key := t.primary_key
    unique_constraints := t.unique_constraints
    indexes := t.indexes
    is_junction := t.is_junction_table }

/-- `ON MATCH` behaviour for a table row: all listed properties are
overwritten, while the `:JunctionTable` label is only ever added. -/
def tableOnMatch (a old : TableProps) : TableProps :=
  { a with is_junction := old.is_junction || a.is_junction }

/-- Key of a `:Column` node: `t.name + '.' + column_data.name`. -/
def columnKeyOf (t : TableSchema) (c : ColumnSchema) : String :=
  t.table_name ++ "." ++ c.name

/-- Property payload of the column `SET` clause of `_create_all_nodes`. -/
def columnPropsOf (t : TableSchema) (c : ColumnSchema) : ColumnProps :=
  { table_name := t.table_name
    data_type := c.data_type
    is_nullable := c.is_nullable
    comment := c.comment
    is_primary_key := decide (c.name ∈ t.primary_key) }

/-- The table rows of the `UNWIND $tables` in `_create_all_nodes`. -/
def tableItems (s : DatabaseSchema) : List (String × TableProps) :=
  s.tables.map (fun t => (t.table_name, tablePropsOf t))

/-- The column rows of the nested `UNWIND columns` in `_create_all_nodes`. -/
def columnItems (s : DatabaseSchema) : List (String × ColumnProps) :=
  s.tables.flatMap (fun t => t.columns.map (fun c => (columnKeyOf t c, columnPropsOf t c)))

/-- `SchemaLoader._create_all_nodes`: one batched query that `MERGE`s every
`:Table` and `:Column` node.  The two stores are disjoint, so the interleaved
per-row execution is modelled as one fold per store. -/
def createAllNodes (s : DatabaseSchema) (g : GraphState) : GraphState :=
  { g with
    tableNodes := foldMerge tableOnMatch id (tableItems s) g.tableNodes
    columnNodes :=
      foldMerge (fun (a : ColumnProps) _ => a) id (columnItems s) g.columnNodes }

/-- Insertion step of an unkeyed `MERGE` on a property-less relationship. -/
def edgeInsert (l : List (String × String)) (e : String × String) : List (String × String) :=
  if e ∈ l then l else l ++ [e]

/-- The `MATCH (t:Table), (c:Column) WHERE c.name STARTS WITH t.name + '.'`
candidate pairs of `_create_has_column_relationships`, computed from the node
keys currently in the graph. -/
def hasColumnCandidates (tableKeys columnKeys : List String) : List (String × String) :=
  tableKeys.flatMap (fun t =>
    (columnKeys.filter (fun c => (t ++ ".").isPrefixOf c)).map (fun c => (t, c)))

/-- `SchemaLoader._create_has_column_relationships`. -/
def createHasColumnRels (g : GraphState) : GraphState :=
  { g with
    hasColumnEdges :=
      (hasColumnCandidates (akeys g.tableNodes) (akeys g.columnNodes)).foldl
        edgeInsert g.hasColumnEdges }

/-- `ON CREATE` payload of an `EXPLICIT_FK_TO` merge: all four properties. -/
def fkPropsOf (fk : ForeignKeySchema) : FKProps :=
  { constrained_columns := fk.constrained_columns
    referred_columns := fk.referred_columns
    on_update := fk.on_update
    on_delete := fk.on_delete }

/-- `ON MATCH` behaviour of the `EXPLICIT_FK_TO` merge: only `on_update` and
`on_delete` are overwritten; the column lists set `ON CREATE` are kept. -/
def fkOnMatch (a old : FKProps) : FKProps :=
  { old with on_update := a.on_update, on_delete := a.on_delete }

/-- One fk row of `_create_fk_relationships`: both `MATCH` clauses filter out
rows whose source or referred table node is absent from the graph (the edge
is then simply not created). -/
def fkItemOf (tableKeys : List String) (t : TableSchema) (fk : ForeignKeySchema) :
    Option ((String × String) × FKProps) :=
  if t.table_name ∈ tableKeys ∧ fk.referred_table ∈ tableKeys then
    some ((t.table_name, fk.referred_table), fkPropsOf fk)
  else none

/-- The fk rows of `_create_fk_relationships`: tables with foreign keys are
unwound (`tables_with_fks`), each foreign key contributing its row when both
endpoints exist. -/
def fkItems (s : DatabaseSchema) (tableKeys : List String) :
    List ((String × String) × FKProps) :=
  (s.tables.filter (fun t => !t.foreign_keys.isEmpty)).flatMap (fun t =>
    t.foreign_keys.filterMap (fkItemOf tableKeys t))

/-- `SchemaLoader._create_fk_relationships`. -/
def createFkRels (s : DatabaseSchema) (g : GraphState) : GraphState :=
  { g with
    fkEdges := foldMerge fkOnMatch id (fkItems s (akeys g.tableNodes)) g.fkEdges }

/-- `SchemaLoader.load_schema`: optional wipe, then nodes, `HAS_COLUMN`
relationships and `EXPLICIT_FK_TO` relationships, in that order. -/
def load_schema (s : DatabaseSchema) (clean_db : Bool) (g : GraphState) : GraphState :=
  let g0 := if clean_db then emptyGraph else g
  createFkRels s (createHasColumnRels (createAllNodes s g0))

/-! ## `SchemaExtractor` (`prometheus/genesis_engine/extractor.py`) -/

/-- `fk_column_names` in step 7 of `extract_schema`: every column name that is
part of some foreign key's `constrained_columns` (a set in the source,
modelled as a list with membership). -/
def fkColumnNames (foreign_keys : List ForeignKeySchema) : List String :=
  foreign_keys.flatMap (·.constrained_columns)

/-- The junction-table heuristic (step 7 of `SchemaExtractor.extract_schema`):
`is_junction` starts `False`; when the table has at least two foreign keys and
a non-empty primary key, and all primary-key columns are FK columns, and no
non-primary-key column lies outside the FK columns, it becomes `True`. -/
def extractIsJunction (columns : List ColumnSchema)
    (foreign_keys : List ForeignKeySchema) (primary_key_cols : List String) : Bool :=
  if 2 ≤ foreign_keys.length ∧ primary_key_cols ≠ [] then
    let fk_column_names := fkColumnNames foreign_keys
    if primary_key_cols.all (fun p => decide (p ∈ fk_column_names)) then
      let non_pk_columns :=
        (columns.map (·.name)).filter (fun n => decide (n ∉ primary_key_cols))
      if non_pk_columns.all (fun n => decide (n ∈ fk_column_names)) then true
      else false
    else false
  else false

/-- The per-table metadata handed back by the SQLAlchemy inspector, already
converted to the model types as in steps 1–6 of `extract_schema`. -/
structure InspectedTable where
  table_name : String
  columns : List ColumnSchema
  foreign_keys : List ForeignKeySchema
  comment : Option String
  primary_key_cols : List String
  unique_constraints : List String
  indexes : List String
deriving DecidableEq, Repr

/-- Step 8 of `SchemaExtractor.extract_schema`: assembly of one `TableSchema`
from the inspected metadata, with the junction heuristic applied. -/
def extractTable (schema_name : String) (it : InspectedTable) : TableSchema :=
  { schema_name := schema_name
    table_name := it.table_name
    columns := it.columns
    foreign_keys := it.foreign_keys
    primary_key := it.primary_key_cols
    unique_constraints := it.unique_constraints
    indexes := it.indexes
    is_junction_table := extractIsJunction it.columns it.foreign_keys it.primary_key_cols
    comment := it.comment }

/-- `SchemaExtractor.extract_schema`: one `TableSchema` per inspected table,
in inspector order. -/
def extract_schema (schema_name : String) (inspected : List InspectedTable) : DatabaseSchema :=
  { tables := inspected.map (extractTable schema_name) }

/-- The classification condition exactly as claim C2 words it (no requirement
that the primary key be non-empty); kept separate from the source-derived
`extractIsJunction` for the refinement comparison. -/
def claimedJunctionCond (columns : List ColumnSchema)
    (foreign_keys : List ForeignKeySchema) (primary_key_cols : List String) : Prop :=
  2 ≤ foreign_keys.length ∧
  (∀ p ∈ primary_key_cols, p ∈ fkColumnNames foreign_keys) ∧
  (∀ c ∈ columns, c.name ∈ fkColumnNames foreign_keys)

instance (columns : List ColumnSchema) (fks : List ForeignKeySchema)
    (pk : List String) : Decidable (claimedJunctionCond columns fks pk) := by
  unfold claimedJunctionCond
  infer_instance

/-! ## `Orchestrator` selection phase
(`prometheus/genesis_engine/orchestrator.py`) -/

/-- An `(entity_type, entity_name)` tuple as used by the orchestrator. -/
abbrev Entity := String × String

/-- `Orchestrator._get_all_entities`: one `("Table", name)` entry per table
followed by one `("Column", "table.column")` entry per column. -/
def getAllEntities (s : DatabaseSchema) : List Entity :=
  s.tables.flatMap (fun t =>
    ("Table", t.table_name) :: t.columns.map (fun c => ("Column", t.table_name ++ "." ++ c.name)))

/-- `Orchestrator._get_entities_to_enrich`.  The graph query for already
enriched node names is modelled as an input that either fails (store
unreachable) or returns the enriched names.  The function never propagates
the failure: the `except` catches it, prints a warning and falls back to
returning every entity, so the result type's `error` branch is unreachable. -/
def getEntitiesToEnrich (all_entities_from_db : List Entity)
    (queryEnriched : Except String (List String)) (force_rerun : Bool) :
    Except String (List Entity) :=
  if force_rerun then .ok all_entities_from_db
  else
    match queryEnriched with
    | .error _ => .ok all_entities_from_db
    | .ok enriched_node_names =>
        .ok (all_entities_from_db.filter (fun e => decide (e.2 ∉ enriched_node_names)))

/-- `is_forced = force_rerun_enrichment if not clean_db else True` in
`Orchestrator.run_genesis`: a fresh wipe implies a forced re-run. -/
def runGenesisIsForced (clean_db force_rerun_enrichment : Bool) : Bool :=
  if !clean_db then force_rerun_enrichment else true

/-! ## Orchestrator event trace for the cost gate (claim C4)

The externally visible calls issued by phases 2 and 3 of `run_genesis`, in
program order.  Evidence collection and token counting inside
`_confirm_enrichment_cost` are local (analyzers and `tiktoken`), so the whole
confirmation is one decision event. -/

/-- Observable calls of `run_genesis` after the scaffold is loaded. -/
inductive GenEvent where
  | costConfirm (approved : Bool)
  | synthesisCall (entity_name : String)
  | embeddingCall (entity_name : String)
  | enrichmentWrite (entity_name : String)
  | vectorIndexCreate
  | relationDiscovery
deriving DecidableEq, Repr

/-- Is the event the cost-gate confirmation? -/
def GenEvent.isConfirm : GenEvent → Bool
  | .costConfirm _ => true
  | _ => false

/-- Is the event a paid generation call (synthesis or embedding)? -/
def GenEvent.isGenerationCall : GenEvent → Bool
  | .synthesisCall _ => true
  | .embeddingCall _ => true
  | _ => false

/-- One entity's slice of `_execute_enrichment_phase`: skip when the evidence
dossier is empty; synthesize; on failure skip; embed; on failure skip;
persist.  Outcomes of the external calls are oracle inputs. -/
def entityEnrichEvents (entity_name : String)
    (hasEvidence synthOk embedOk : String → Bool) : List GenEvent :=
  if !hasEvidence entity_name then []
  else
    GenEvent.synthesisCall entity_name ::
      (if !synthOk entity_name then []
       else
         GenEvent.embeddingCall entity_name ::
           (if !embedOk entity_name then []
            else [GenEvent.enrichmentWrite entity_name]))

/-- Phases 2–3 of `run_genesis` as an event trace: an empty target set skips
the gate and the enrichment; otherwise the cost gate is asked once, a decline
returns from `run_genesis` immediately, and an approval runs the enrichment
loop followed by vector-index creation and implicit-relation discovery. -/
def runGenesisEvents (entities_to_process : List Entity) (approved : Bool)
    (hasEvidence synthOk embedOk : String → Bool) : List GenEvent :=
  if entities_to_process.isEmpty then
    [GenEvent.vectorIndexCreate, GenEvent.relationDiscovery]
  else
    GenEvent.costConfirm approved ::
      (if approved then
        entities_to_process.flatMap
            (fun e => entityEnrichEvents e.2 hasEvidence synthOk embedOk)
          ++ [GenEvent.vectorIndexCreate, GenEvent.relationDiscovery]
      else [])

/-! ## Seeded sampling (claim C8) -/

/-- Modelled from the spec: one step of a deterministic pseudo-random number
generator, standing in for Python's global Mersenne-Twister state (the
`random` stdlib module is not part of this repository). -/
def lcgNext (state : Nat) : Nat := (state * 1103515245 + 12345) % 2 ^ 31

/-- Modelled from the spec: `random.sample(pool, k)` — a deterministic draw of
`k` distinct positions without replacement, a pure function of the seeded
generator state and the population list. -/
def drawSample {α : Type} (state : Nat) : Nat → List α → List α
  | 0, _ => []
  | _ + 1, [] => []
  | k + 1, a :: pool =>
      let st := lcgNext state
      (a :: pool).get ⟨st % (a :: pool).length, Nat.mod_lt _ (Nat.succ_pos _)⟩ ::
        drawSample st k ((a :: pool).eraseIdx (st % (a :: pool).length))

/-- The sampling block of `run_genesis` (phase 2): `if sample_size:` (false
for `None` and for `0`), then `random.seed(42)` — overwriting whatever state
`rngState` the global generator had — and
`random.sample(entities_to_process, min(sample_size, len(entities_to_process)))`. -/
def runGenesisSampleStep (_rngState : Nat) (entities_to_process : List Entity)
    (sample_size : Option Nat) : List Entity :=
  match sample_size with
  | none => entities_to_process
  | some s =>
      if s = 0 then entities_to_process
      else drawSample 42 (min s entities_to_process.length) entities_to_process

/-! ## `SmartDataProfilerAnalyzer`
(`prometheus/genesis_engine/analyzers/stock/data_profilers.py`)

The SQL query results are oracle inputs; the evidence chunk's content is a
`"\n"`-joined list of lines, modelled as the line list itself (each line's
exact text is injectively determined by its constructor). -/

/-- Lexicographic code-point comparison (Python `<` on `str`), computed on
the underlying character lists. -/
def strLtb : List Char → List Char → Bool
  | [], [] => false
  | [], _ :: _ => true
  | _ :: _, [] => false
  | a :: as, b :: bs => if a < b then true else if b < a then false else strLtb as bs

/-- Python `<=` on `str`. -/
def pyStrLe (a b : String) : Bool := !(strLtb b.data a.data)

/-- Python `sorted` on a list of strings: the stable ascending sort. -/
def pySorted (l : List String) : List String :=
  l.insertionSort (fun a b => pyStrLe a b)

/-- `MINIMUM_ROWS_FOR_ANALYSIS` class constant. -/
def MINIMUM_ROWS_FOR_ANALYSIS : Nat := 50

/-- `MAX_DISTINCT_VALUES` class constant. -/
def MAX_DISTINCT_VALUES : Nat := 30

/-- One content line of the profiler's evidence chunk. -/
inductive ProfLine where
  | sampleValues (vals : List String)
  | cardinalityLowRelative
  | distinctValues (vals : List String)
  | emptyColumnNote
deriving DecidableEq, Repr

/-- The profiler's evidence chunk: analyzer name plus content lines. -/
structure ProfilerChunk where
  analyzer_name : String
  contentLines : List ProfLine
deriving DecidableEq, Repr

/-- Results of the three SQL queries the analyzer issues, as oracle inputs:
the one-pass stats query (which fails on `DISTINCT`-incompatible types), the
random-sample fetch (its own failure already degraded to `[]` by the inner
`try`), and the bounded distinct-value fetch. -/
structure ProfilerInputs where
  statsResult : Except String (Nat × Nat)
  randomSamples : List String
  distinctFetch : Except String (List String)
deriving Repr

/-- The categorical classification of `SmartDataProfilerAnalyzer.analyze`:
`total_rows >= MINIMUM_ROWS_FOR_ANALYSIS and distinct_count <
MAX_DISTINCT_VALUES`, then `distinct_ratio < MAX_DISTINCT_RATIO` where
`distinct_ratio = distinct_count / total_rows if total_rows > 0 else 0` and
`MAX_DISTINCT_RATIO = 0.1` (the exact rational comparison
`distinct_count / total_rows < 1/10` is `10 * distinct_count < total_rows`). -/
def profilerIsLikelyCategorical (total_rows distinct_count : Nat) : Bool :=
  if MINIMUM_ROWS_FOR_ANALYSIS ≤ total_rows ∧ distinct_count < MAX_DISTINCT_VALUES then
    if 0 < total_rows then 10 * distinct_count < total_rows else true
  else false

/-- `SmartDataProfilerAnalyzer._build_evidence_chunk`: the `sample_values`
line when samples are non-empty, the two cardinality lines when a non-empty
distinct list is given (`if distincts:` is false for `None` and for `[]`),
and the empty-column note when nothing else was collected. -/
def buildEvidenceLines (samples : List String) (distincts : Option (List String)) :
    List ProfLine :=
  let content_lines :=
    (if samples ≠ [] then [ProfLine.sampleValues samples] else [])
      ++ (match distincts with
          | some ds =>
              if ds ≠ [] then [ProfLine.cardinalityLowRelative, ProfLine.distinctValues ds]
              else []
          | none => [])
  if content_lines = [] then [ProfLine.emptyColumnNote] else content_lines

/-- `SmartDataProfilerAnalyzer._build_evidence_chunk` wrapped as a chunk. -/
def buildEvidenceChunk (samples : List String) (distincts : Option (List String)) :
    ProfilerChunk :=
  { analyzer_name := "DataProfile", contentLines := buildEvidenceLines samples distincts }

/-- `SmartDataProfilerAnalyzer.analyze`: non-column contexts yield nothing; a
name without a dot makes the tuple unpacking raise (caught by the outer
`except`, yielding `None`); a failing stats query degrades to the
random-sample fallback; otherwise classify, fetch samples, fetch and sort the
distinct values only when categorical, and assemble the chunk.  A failure of
the distinct-value fetch escapes to the outer `except` and yields `None`. -/
def smartDataProfilerAnalyze (node_type node_name : String) (inp : ProfilerInputs) :
    Option ProfilerChunk :=
  if node_type ≠ "Column" then none
  else if '.' ∉ node_name.data then none
  else
    match inp.statsResult with
    | .error _ => some (buildEvidenceChunk inp.randomSamples none)
    | .ok (total_rows, distinct_count) =>
        if profilerIsLikelyCategorical total_rows distinct_count then
          match inp.distinctFetch with
          | .error _ => none
          | .ok vals =>
              some (buildEvidenceChunk inp.randomSamples (some (pySorted vals)))
        else some (buildEvidenceChunk inp.randomSamples none)

/-! ## `EnrichmentCostCalculator`
(`prometheus/genesis_engine/core/cost_calculator.py`) -/

/-- An evidence chunk as produced by any analyzer (`analyzers/base.py`):
analyzer name plus free-text content. -/
structure EvidenceChunk where
  analyzer_name : String
  content : String
deriving DecidableEq, Repr

/-- `PROMPT_TEMPLATE` from `description_synthesizer.py`, raw and unformatted
(the doubled braces of the Python source are written here with hex escapes). -/
def PROMPT_TEMPLATE : String :=
  "\nYou are an AI data architect. Synthesize the provided evidence into a structured JSON output.\nFocus on creating a dense, factual description suitable for vector embedding and machine processing.\n\n### ENTITY CONTEXT\n- Entity Type: {entity_type}\n- Entity Name: {entity_name}\n\n### CUMULATIVE EVIDENCE\n{evidence_string}\n\n### YOUR TASK\nGenerate a single, raw JSON object with the following keys. No reasoning, explanations, or markdown needed.\n\n\x7b\x7b\n  \"core_description\": \"A dense, factual description of the entity\x27s functional purpose, in English. Combine all relevant clues.\",\n  \"inferred_logic\": \"If any business logic is inferred from the data (e.g., from distinct values), state it here concisely. Otherwise, null.\",\n  \"stereotype\": \"Classify the entity from this list: \x27Master\x27, \x27Transaction\x27, \x27Junction\x27, \x27Config\x27, \x27Log\x27, \x27Detail\x27, \x27Unknown\x27.\",\n  \"confidence\": \"A 0.0-1.0 confidence score.\"\n\x7d\x7d\n\n### JSON OUTPUT ONLY:\n"

/-- The configured synthesis model pricing (`settings`, external config). -/
structure CostSettings where
  synthesis_model_name : String
  synthesis_price_input_usd_per_mtkn : ℚ
  synthesis_price_output_usd_per_mtkn : ℚ

/-- `EnrichmentCostCalculator`: `tokenizer` is the loaded `tiktoken` encoding
— an arbitrary total token-counting function, external to this repository —
or `none` when loading failed, which selects the character-count fallback. -/
structure EnrichmentCostCalculator where
  tokenizer : Option (String → Nat)
  settings : CostSettings

/-- `_count_tokens`: the tokenizer when available, else `len(text) // 4`. -/
def EnrichmentCostCalculator.count_tokens (c : EnrichmentCostCalculator)
    (text : String) : Nat :=
  match c.tokenizer with
  | some tok => tok text
  | none => text.length / 4

/-- `self.price_per_input_token = settings.synthesis_price_input_usd_per_mtkn / 1_000_000`. -/
def EnrichmentCostCalculator.price_per_input_token (c : EnrichmentCostCalculator) : ℚ :=
  c.settings.synthesis_price_input_usd_per_mtkn / 1000000

/-- `self.price_per_output_token`. -/
def EnrichmentCostCalculator.price_per_output_token (c : EnrichmentCostCalculator) : ℚ :=
  c.settings.synthesis_price_output_usd_per_mtkn / 1000000

/-- `self.static_prompt_template_tokens = self._count_tokens(PROMPT_TEMPLATE)`. -/
def EnrichmentCostCalculator.static_prompt_template_tokens
    (c : EnrichmentCostCalculator) : Nat :=
  c.count_tokens PROMPT_TEMPLATE

/-- `self.estimated_output_tokens_per_entity = 120`. -/
def estimated_output_tokens_per_entity : Nat := 120

/-- One evidence block `f"# --- {c.analyzer_name} ---\n{c.content}"`. -/
def evidenceBlock (c : EvidenceChunk) : String :=
  "# --- " ++ c.analyzer_name ++ " ---\n" ++ c.content

/-- `"\n\n".join(...)` over an evidence dossier, as in `estimate_cost` (and
identically in `_build_prompt`). -/
def evidenceString (dossier : List EvidenceChunk) : String :=
  String.intercalate "\n\n" (dossier.map evidenceBlock)

/-- `f"- Entity Type: {entity_type}\n- Entity Name: {entity_name}"`. -/
def entityHeader (entity_type entity_name : String) : String :=
  "- Entity Type: " ++ entity_type ++ "\n- Entity Name: " ++ entity_name

/-- The cost report dictionary returned by `estimate_cost`; the three cost
entries are dollar-formatted strings in the source and are modelled by the
numbers being formatted. -/
structure CostReport where
  model_name : String
  entity_count : Nat
  estimated_input_tokens : Nat
  estimated_output_tokens : Nat
  estimated_total_tokens : Nat
  input_cost_usd : ℚ
  output_cost_usd : ℚ
  total_estimated_cost_usd : ℚ

/-- Input tokens attributed to one entity inside the `estimate_cost` loop:
static template tokens, plus the entity-header tokens, plus the tokens of the
joined evidence dossier (`evidence_map.get(entity_name, [])` is modelled by a
total map). -/
def entityInputTokens (c : EnrichmentCostCalculator)
    (evidence_map : String → List EvidenceChunk) (e : Entity) : Nat :=
  c.static_prompt_template_tokens
    + c.count_tokens (entityHeader e.1 e.2)
    + c.count_tokens (evidenceString (evidence_map e.2))

/-- `EnrichmentCostCalculator.estimate_cost`. -/
def EnrichmentCostCalculator.estimate_cost (c : EnrichmentCostCalculator)
    (all_entities : List Entity) (evidence_map : String → List EvidenceChunk) :
    CostReport :=
  let total_input_tokens := (all_entities.map (entityInputTokens c evidence_map)).sum
  let total_output_tokens := estimated_output_tokens_per_entity * all_entities.length
  let total_input_cost := (total_input_tokens : ℚ) * c.price_per_input_token
  let total_output_cost := (total_output_tokens : ℚ) * c.price_per_output_token
  { model_name := c.settings.synthesis_model_name
    entity_count := all_entities.length
    estimated_input_tokens := total_input_tokens
    estimated_output_tokens := total_output_tokens
    estimated_total_tokens := total_input_tokens + total_output_tokens
    input_cost_usd := total_input_cost
    output_cost_usd := total_output_cost
    total_estimated_cost_usd := total_input_cost + total_output_cost }

/-! ## JSON values and parsing

`DescriptionSynthesizer._parse_llm_response` runs `json.loads` on the regex
match.  `json` is the Python standard library, external to this repository,
so it is modelled from the spec ("the first well-formed JSON object") by a
standard JSON grammar: values are null, booleans, numbers (as exact
rationals), strings (with the usual escapes), arrays and objects.  Lexical
corner cases (leading zeros, raw control characters in strings, surrogate
pairs) are simplified. -/

/-- A parsed JSON value. -/
inductive Json where
  | null
  | jbool (b : Bool)
  | num (q : ℚ)
  | str (s : String)
  | arr (items : List Json)
  | obj (members : List (String × Json))
deriving Repr

/-- JSON insignificant whitespace. -/
def isWsChar (c : Char) : Bool := c = ' ' || c = '\t' || c = '\n' || c = '\r'

/-- Skip insignificant whitespace. -/
def skipWs (cs : List Char) : List Char := cs.dropWhile isWsChar

/-- ASCII decimal digit. -/
def isDigitChar (c : Char) : Bool := '0' ≤ c && c ≤ '9'

/-- Value of a digit string. -/
def digitsToNat (ds : List Char) : Nat :=
  ds.foldl (fun n c => 10 * n + (c.toNat - '0'.toNat)) 0

/-- Value of one hexadecimal digit, by code-point ranges: `0`–`9` are codes
48–57, `a`–`f` are 97–102, `A`–`F` are 65–70. -/
def hexVal (c : Char) : Option Nat :=
  let n := c.toNat
  if 48 ≤ n ∧ n ≤ 57 then some (n - 48)
  else if 97 ≤ n ∧ n ≤ 102 then some (n - 87)
  else if 65 ≤ n ∧ n ≤ 70 then some (n - 55)
  else none

/-- JSON string body after the opening quote: ordinary characters and the
standard escapes, ending at the closing quote. -/
def parseStringBody : Nat → List Char → List Char → Option (String × List Char)
  | 0, _, _ => none
  | _ + 1, _, [] => none
  | fuel + 1, acc, c :: rest =>
    if c = '"' then some (String.mk acc.reverse, rest)
    else if c = '\\' then
      match rest with
      | [] => none
      | e :: rest2 =>
        if e = '"' then parseStringBody fuel ('"' :: acc) rest2
        else if e = '\\' then parseStringBody fuel ('\\' :: acc) rest2
        else if e = '/' then parseStringBody fuel ('/' :: acc) rest2
        else if e = 'b' then parseStringBody fuel ('\x08' :: acc) rest2
        else if e = 'f' then parseStringBody fuel ('\x0c' :: acc) rest2
        else if e = 'n' then parseStringBody fuel ('\n' :: acc) rest2
        else if e = 'r' then parseStringBody fuel ('\r' :: acc) rest2
        else if e = 't' then parseStringBody fuel ('\t' :: acc) rest2
        else if e = 'u' then
          match rest2 with
          | h1 :: h2 :: h3 :: h4 :: rest3 =>
            match hexVal h1, hexVal h2, hexVal h3, hexVal h4 with
            | some a, some b, some c2, some d =>
              let code := ((a * 16 + b) * 16 + c2) * 16 + d
              if code < 55296 || (57343 < code && code < 1114112) then
                parseStringBody fuel (Char.ofNat code :: acc) rest3
              else none
            | _, _, _, _ => none
          | _ => none
        else none
    else parseStringBody fuel (c :: acc) rest

/-- Optional fraction part `.digits`. -/
def parseFracPart (cs : List Char) : Option (List Char × List Char) :=
  match cs with
  | '.' :: r =>
    let ds := r.takeWhile isDigitChar
    if ds = [] then none else some (ds, r.drop ds.length)
  | _ => some ([], cs)

/-- Optional exponent part `e[+-]digits`. -/
def parseExpPart (cs : List Char) : Option (Int × List Char) :=
  match cs with
  | c :: r =>
    if c = 'e' || c = 'E' then
      let sgnR : Int × List Char :=
        match r with
        | '+' :: rr => (1, rr)
        | '-' :: rr => (-1, rr)
        | _ => (1, r)
      let ds := sgnR.2.takeWhile isDigitChar
      if ds = [] then none
      else some (sgnR.1 * (digitsToNat ds : Int), sgnR.2.drop ds.length)
    else some (0, c :: r)
  | [] => some (0, [])

/-- JSON number as an exact rational. -/
def parseNumber (cs : List Char) : Option (Json × List Char) :=
  let negCs : Bool × List Char :=
    match cs with
    | '-' :: r => (true, r)
    | _ => (false, cs)
  let intDs := negCs.2.takeWhile isDigitChar
  if intDs = [] then none
  else
    let cs2 := negCs.2.drop intDs.length
    match parseFracPart cs2 with
    | none => none
    | some (fracDs, cs3) =>
      match parseExpPart cs3 with
      | none => none
      | some (e, cs4) =>
        let digits : Int := (digitsToNat (intDs ++ fracDs) : Int)
        let signedDigits : Int := if negCs.1 then -digits else digits
        let value : ℚ :=
          if 0 ≤ e then mkRat (signedDigits * ((10 ^ e.toNat : Nat) : Int)) (10 ^ fracDs.length)
          else mkRat signedDigits (10 ^ fracDs.length * 10 ^ (-e).toNat)
        some (.num value, cs4)

/-- What the recursive-descent step is currently parsing: a value, the items
of an array after `[`, or the members of an object after the opening brace. -/
inductive PMode where
  | value
  | arrayItems
  | objItems

/-- Result of one recursive-descent step, tagged by mode. -/
inductive PResult where
  | val (j : Json) (rest : List Char)
  | items (l : List Json) (rest : List Char)
  | members (ms : List (String × Json)) (rest : List Char)

/-- The recursive-descent JSON parser, fuelled (one combined function so the
recursion is structural on the fuel). -/
def parseStep : Nat → PMode → List Char → Option PResult
  | 0, _, _ => none
  | fuel + 1, PMode.value, cs =>
    match skipWs cs with
    | 'n' :: 'u' :: 'l' :: 'l' :: r => some (.val .null r)
    | 't' :: 'r' :: 'u' :: 'e' :: r => some (.val (.jbool true) r)
    | 'f' :: 'a' :: 'l' :: 's' :: 'e' :: r => some (.val (.jbool false) r)
    | '"' :: r =>
        match parseStringBody (fuel + 1) [] r with
        | none => none
        | some (s, r2) => some (.val (.str s) r2)
    | '[' :: r =>
        match skipWs r with
        | ']' :: r2 => some (.val (.arr []) r2)
        | _ =>
          match parseStep fuel PMode.arrayItems r with
          | some (.items l r2) => some (.val (.arr l) r2)
          | _ => none
    | '\x7b' :: r =>
        match skipWs r with
        | '\x7d' :: r2 => some (.val (.obj []) r2)
        | _ =>
          match parseStep fuel PMode.objItems r with
          | some (.members ms r2) => some (.val (.obj ms) r2)
          | _ => none
    | c :: r =>
        if c = '-' || isDigitChar c then
          match parseNumber (c :: r) with
          | none => none
          | some (j, r2) => some (.val j r2)
        else none
    | [] => none
  | fuel + 1, PMode.arrayItems, cs =>
    match parseStep fuel PMode.value cs with
    | some (.val j r) =>
      match skipWs r with
      | ',' :: r2 =>
        match parseStep fuel PMode.arrayItems r2 with
        | some (.items l r3) => some (.items (j :: l) r3)
        | _ => none
      | ']' :: r2 => some (.items [j] r2)
      | _ => none
    | _ => none
  | fuel + 1, PMode.objItems, cs =>
    match skipWs cs with
    | '"' :: r =>
      match parseStringBody (fuel + 1) [] r with
      | none => none
      | some (k, r2) =>
        match skipWs r2 with
        | ':' :: r3 =>
          match parseStep fuel PMode.value r3 with
          | some (.val v r4) =>
            match skipWs r4 with
            | ',' :: r5 =>
              match parseStep fuel PMode.objItems r5 with
              | some (.members ms r6) => some (.members ((k, v) :: ms) r6)
              | _ => none
            | '\x7d' :: r5 => some (.members [(k, v)] r5)
            | _ => none
          | _ => none
        | _ => none
    | _ => none

/-- `json.loads` on a character list: parse one value, then require only
trailing whitespace. -/
def json_loads_chars (cs : List Char) : Option Json :=
  match parseStep (cs.length + 1) PMode.value cs with
  | some (.val j rest) => if skipWs rest = [] then some j else none
  | _ => none

/-! ## `DescriptionSynthesizer`
(`prometheus/genesis_engine/core/description_synthesizer.py`) -/

/-- `CoreDescription` from `models.py` (the validated synthesis output). -/
structure CoreDescription where
  core_description : String
  inferred_logic : Option String
  stereotype : String
  confidence : ℚ
deriving DecidableEq, Repr

/-- Field access on a parsed JSON object: Python dicts built by `json.loads`
keep the last duplicate of a key. -/
def jget (ms : List (String × Json)) (k : String) : Option Json :=
  alookup k ms.reverse

/-- Modelled from the spec: pydantic validation of the `CoreDescription`
shape (`models.py`; pydantic itself is an external library): required string
`core_description`, optional string `inferred_logic` (absent or `null` both
give `None`), required string `stereotype`, required numeric `confidence`
with `ge=0.0, le=1.0`.  Pydantic's lenient coercions (e.g. numeric strings to
floats) are not modelled. -/
def validateCoreDescription (j : Json) : Option CoreDescription :=
  match j with
  | .obj ms =>
    match jget ms "core_description", jget ms "stereotype", jget ms "confidence" with
    | some (.str cd), some (.str st), some (.num q) =>
      if 0 ≤ q ∧ q ≤ 1 then
        match jget ms "inferred_logic" with
        | none => some ⟨cd, none, st, q⟩
        | some .null => some ⟨cd, none, st, q⟩
        | some (.str il) => some ⟨cd, some il, st, q⟩
        | some _ => none
      else none
    | _, _, _ => none
  | _ => none

/-- The `re.search` of `_parse_llm_response` with pattern "brace, greedy
dot-all, brace": the match, if any, runs from the first opening brace to the
last closing brace after it. -/
def braceSpan (cs : List Char) : Option (List Char) :=
  let t := cs.dropWhile (fun c => c ≠ '\x7b')
  if t = [] then none
  else
    let u := t.reverse.dropWhile (fun c => c ≠ '\x7d')
    if u = [] then none else some u.reverse

/-- `DescriptionSynthesizer._parse_llm_response`: regex-extract the brace
span, then `json.loads`; both failures raise `ValueError` (modelled as the
`error` branch). -/
def parse_llm_response (response_content : String) : Except String Json :=
  match braceSpan response_content.data with
  | none => .error "No valid JSON object found in the LLM response."
  | some span =>
    match json_loads_chars span with
    | none => .error "Failed to parse JSON from LLM response"
    | some j => .ok j

/-- `DescriptionSynthesizer.synthesize` from the provider call onward.  The
provider outcome is an input: an exception, or the extracted response text
(`""` when both `output_text` and `text` are empty/missing, which the
`if not response_content` check turns into `None`).  Parse and validation
failures raise inside the `try` and are caught by the blanket `except`,
which returns `None`; the function is total, so no exception escapes. -/
def synthesize (providerResult : Except String String) : Option CoreDescription :=
  match providerResult with
  | .error _ => none
  | .ok response_content =>
    if response_content = "" then none
    else
      match parse_llm_response response_content with
      | .error _ => none
      | .ok parsed_data =>
        match validateCoreDescription parsed_data with
        | none => none
        | some validated_description => some validated_description

/-- Parsing fixture: a well-formed `CoreDescription` JSON object. -/
def goodJsonObject : String :=
  "\x7b\"core_description\": \"Stores application user accounts.\", \"inferred_logic\": null, \"stereotype\": \"Master\", \"confidence\": 0.9\x7d"

/-- Parsing fixture: explanatory prose before the object (no braces). -/
def proseBefore : String := "Sure, here is the JSON you requested: "

/-- Parsing fixture: explanatory prose after the object (no braces). -/
def proseAfterClean : String := " Hope that helps."

/-- Parsing fixture: explanatory prose after the object containing a closing
brace. -/
def proseAfterBrace : String := " Note: JSON objects end with \x7d."

/-- Loader fixture: a referred-to table. -/
def usersTableFixture : TableSchema :=
  { schema_name := "public", table_name := "users"
    columns := [⟨"id", "INTEGER", false, none⟩], primary_key := ["id"] }

/-- Loader fixture: a table declaring two foreign keys to `users` with
different column lists and referential actions. -/
def ordersTableFixture : TableSchema :=
  { schema_name := "public", table_name := "orders"
    columns := [⟨"id", "INTEGER", false, none⟩,
                ⟨"buyer_id", "INTEGER", false, none⟩,
                ⟨"seller_id", "INTEGER", true, none⟩]
    foreign_keys :=
      [⟨["buyer_id"], "public", "users", ["id"], some "CASCADE", some "CASCADE"⟩,
       ⟨["seller_id"], "public", "users", ["id"], none, some "SET NULL"⟩]
    primary_key := ["id"] }

/-- Loader fixture: the two tables above as one schema. -/
def fkFixtureSchema : DatabaseSchema := ⟨[usersTableFixture, ordersTableFixture]⟩

end Prometheus

namespace Prometheus

/-! ## Lemmas: keys under merge semantics -/

theorem akeys_append {K V : Type} (l₁ l₂ : List (K × V)) :
    akeys (l₁ ++ l₂) = akeys l₁ ++ akeys l₂ := by
  simp [akeys]

theorem akeys_mergeAL {K V A : Type} [DecidableEq K]
    (om : A → V → V) (oc : A → V) (l : List (K × V)) (k : K) (a : A) :
    akeys (mergeAL om oc l k a) = if k ∈ akeys l then akeys l else akeys l ++ [k] := by
  unfold mergeAL
  split
  · simp only [akeys, List.map_map, if_pos ‹k ∈ akeys l›]
    apply List.map_congr_left
    intro kv _
    by_cases h : kv.1 = k <;> simp [h]
  · simp [akeys, ‹¬ k ∈ akeys l›]

theorem akeys_subset_mergeAL {K V A : Type} [DecidableEq K]
    (om : A → V → V) (oc : A → V) (l : List (K × V)) (k : K) (a : A) :
    akeys l ⊆ akeys (mergeAL om oc l k a) := by
  rw [akeys_mergeAL]
  split
  · exact fun x hx => hx
  · exact fun x hx => List.mem_append_left _ hx

theorem mem_akeys_mergeAL_self {K V A : Type} [DecidableEq K]
    (om : A → V → V) (oc : A → V) (l : List (K × V)) (k : K) (a : A) :
    k ∈ akeys (mergeAL om oc l k a) := by
  rw [akeys_mergeAL]
  split
  · assumption
  · simp

theorem akeys_subset_foldMerge {K V A : Type} [DecidableEq K]
    (om : A → V → V) (oc : A → V) (items : List (K × A)) (l : List (K × V)) :
    akeys l ⊆ akeys (foldMerge om oc items l) := by
  induction items generalizing l with
  | nil => exact fun x hx => hx
  | cons it rest ih =>
    intro x hx
    exact ih _ (akeys_subset_mergeAL om oc l it.1 it.2 hx)

theorem mem_akeys_foldMerge {K V A : Type} [DecidableEq K]
    (om : A → V → V) (oc : A → V) (items : List (K × A)) (l : List (K × V))
    (it : K × A) (hit : it ∈ items) :
    it.1 ∈ akeys (foldMerge om oc items l) := by
  induction items generalizing l with
  | nil => cases hit
  | cons hd rest ih =>
    rcases List.mem_cons.mp hit with heq | hmem
    · subst heq
      exact akeys_subset_foldMerge om oc rest _ (mem_akeys_mergeAL_self om oc l it.1 it.2)
    · exact ih _ hmem

theorem akeys_foldMerge_stable {K V A : Type} [DecidableEq K]
    (om : A → V → V) (oc : A → V) (items : List (K × A)) (l : List (K × V))
    (h : ∀ it ∈ items, it.1 ∈ akeys l) :
    akeys (foldMerge om oc items l) = akeys l := by
  induction items generalizing l with
  | nil => rfl
  | cons hd rest ih =>
    have hhd : hd.1 ∈ akeys l := h hd (List.mem_cons_self hd rest)
    have hstep : akeys (mergeAL om oc l hd.1 hd.2) = akeys l := by
      rw [akeys_mergeAL, if_pos hhd]
    have := ih (mergeAL om oc l hd.1 hd.2)
      (fun it hit => hstep ▸ h it (List.mem_cons_of_mem hd hit))
    simpa [foldMerge, hstep] using this

theorem edgeInsert_mem (l : List (String × String)) (e : String × String) :
    e ∈ edgeInsert l e := by
  unfold edgeInsert
  split
  · assumption
  · simp

theorem edgeInsert_subset (l : List (String × String)) (e : String × String) :
    l ⊆ edgeInsert l e := by
  unfold edgeInsert
  split
  · exact fun x hx => hx
  · exact fun x hx => List.mem_append_left _ hx

theorem foldl_edgeInsert_subset (cands : List (String × String)) (l : List (String × String)) :
    l ⊆ cands.foldl edgeInsert l := by
  induction cands generalizing l with
  | nil => exact fun x hx => hx
  | cons c rest ih => exact fun x hx => ih _ (edgeInsert_subset l c hx)

theorem mem_foldl_edgeInsert (cands : List (String × String)) (l : List (String × String))
    (e : String × String) (he : e ∈ cands) :
    e ∈ cands.foldl edgeInsert l := by
  induction cands generalizing l with
  | nil => cases he
  | cons c rest ih =>
    rcases List.mem_cons.mp he with heq | hmem
    · subst heq
      exact foldl_edgeInsert_subset rest _ (edgeInsert_mem l e)
    · exact ih _ hmem

theorem foldl_edgeInsert_stable (cands : List (String × String)) (l : List (String × String))
    (h : ∀ e ∈ cands, e ∈ l) :
    cands.foldl edgeInsert l = l := by
  induction cands with
  | nil => rfl
  | cons c rest ih =>
    have hc : edgeInsert l c = l := by
      unfold edgeInsert
      rw [if_pos (h c (List.mem_cons_self c rest))]
    rw [List.foldl_cons, hc, ih (fun e he => h e (List.mem_cons_of_mem c he))]

/-! ## Lemmas: the components `load_schema` touches -/

theorem tableNodes_createHasColumnRels (g : GraphState) :
    (createHasColumnRels g).tableNodes = g.tableNodes := rfl

theorem tableNodes_createFkRels (s : DatabaseSchema) (g : GraphState) :
    (createFkRels s g).tableNodes = g.tableNodes := rfl

theorem columnNodes_createHasColumnRels (g : GraphState) :
    (createHasColumnRels g).columnNodes = g.columnNodes := rfl

theorem columnNodes_createFkRels (s : DatabaseSchema) (g : GraphState) :
    (createFkRels s g).columnNodes = g.columnNodes := rfl

theorem hasColumnEdges_createFkRels (s : DatabaseSchema) (g : GraphState) :
    (createFkRels s g).hasColumnEdges = g.hasColumnEdges := rfl

/-- Every row of `tableItems s` has its key present after `createAllNodes`. -/
theorem tableItems_keys_present (s : DatabaseSchema) (g : GraphState) :
    ∀ it ∈ tableItems s, it.1 ∈ akeys (createAllNodes s g).tableNodes := by
  intro it hit
  exact mem_akeys_foldMerge _ _ _ _ it hit

theorem columnItems_keys_present (s : DatabaseSchema) (g : GraphState) :
    ∀ it ∈ columnItems s, it.1 ∈ akeys (createAllNodes s g).columnNodes := by
  intro it hit
  exact mem_akeys_foldMerge _ _ _ _ it hit

/-- C1 core, table nodes: a second `createAllNodes` pass leaves the key list
of the table store unchanged. -/
theorem akeys_tableNodes_idem (s : DatabaseSchema) (g : GraphState) :
    akeys (createAllNodes s (createAllNodes s g)).tableNodes
      = akeys (createAllNodes s g).tableNodes := by
  exact akeys_foldMerge_stable _ _ _ _ (tableItems_keys_present s g)

theorem akeys_columnNodes_idem (s : DatabaseSchema) (g : GraphState) :
    akeys (createAllNodes s (createAllNodes s g)).columnNodes
      = akeys (createAllNodes s g).columnNodes := by
  exact akeys_foldMerge_stable _ _ _ _ (columnItems_keys_present s g)

theorem load_schema_tableNodes (s : DatabaseSchema) (g : GraphState) :
    (load_schema s false g).tableNodes
      = foldMerge tableOnMatch id (tableItems s) g.tableNodes := rfl

theorem load_schema_columnNodes (s : DatabaseSchema) (g : GraphState) :
    (load_schema s false g).columnNodes
      = foldMerge (fun (a : ColumnProps) _ => a) id (columnItems s) g.columnNodes := rfl

theorem load_schema_hasColumnEdges (s : DatabaseSchema) (g : GraphState) :
    (load_schema s false g).hasColumnEdges
      = (hasColumnCandidates (akeys (createAllNodes s g).tableNodes)
          (akeys (createAllNodes s g).columnNodes)).foldl edgeInsert g.hasColumnEdges := rfl

theorem load_schema_fkEdges (s : DatabaseSchema) (g : GraphState) :
    (load_schema s false g).fkEdges
      = foldMerge fkOnMatch id (fkItems s (akeys (createAllNodes s g).tableNodes))
          g.fkEdges := rfl

/-- Table-node keys are the same after the first and the second load. -/
theorem akeys_tableNodes_load_idem (s : DatabaseSchema) (g : GraphState) :
    akeys (load_schema s false (load_schema s false g)).tableNodes
      = akeys (load_schema s false g).tableNodes := by
  rw [load_schema_tableNodes s (load_schema s false g)]
  refine akeys_foldMerge_stable _ _ _ _ ?_
  intro it hit
  rw [load_schema_tableNodes s g]
  exact mem_akeys_foldMerge _ _ _ _ it hit

theorem akeys_columnNodes_load_idem (s : DatabaseSchema) (g : GraphState) :
    akeys (load_schema s false (load_schema s false g)).columnNodes
      = akeys (load_schema s false g).columnNodes := by
  rw [load_schema_columnNodes s (load_schema s false g)]
  refine akeys_foldMerge_stable _ _ _ _ ?_
  intro it hit
  rw [load_schema_columnNodes s g]
  exact mem_akeys_foldMerge _ _ _ _ it hit

/-- The node-key lists the second load's `MATCH` phases see are those of the
first load's result. -/
theorem akeys_createAllNodes_after_load (s : DatabaseSchema) (g : GraphState) :
    akeys (createAllNodes s (load_schema s false g)).tableNodes
      = akeys (createAllNodes s g).tableNodes
    ∧ akeys (createAllNodes s (load_schema s false g)).columnNodes
      = akeys (createAllNodes s g).columnNodes := by
  constructor
  · have h1 : akeys (createAllNodes s (load_schema s false g)).tableNodes
        = akeys (load_schema s false g).tableNodes := by
      refine akeys_foldMerge_stable _ _ _ _ ?_
      intro it hit
      rw [load_schema_tableNodes s g]
      exact mem_akeys_foldMerge _ _ _ _ it hit
    rw [h1, load_schema_tableNodes s g]
    rfl
  · have h1 : akeys (createAllNodes s (load_schema s false g)).columnNodes
        = akeys (load_schema s false g).columnNodes := by
      refine akeys_foldMerge_stable _ _ _ _ ?_
      intro it hit
      rw [load_schema_columnNodes s g]
      exact mem_akeys_foldMerge _ _ _ _ it hit
    rw [h1, load_schema_columnNodes s g]
    rfl

theorem hasColumnEdges_load_idem (s : DatabaseSchema) (g : GraphState) :
    (load_schema s false (load_schema s false g)).hasColumnEdges
      = (load_schema s false g).hasColumnEdges := by
  rw [load_schema_hasColumnEdges s (load_schema s false g),
    (akeys_createAllNodes_after_load s g).1, (akeys_createAllNodes_after_load s g).2]
  refine foldl_edgeInsert_stable _ _ ?_
  intro e he
  rw [load_schema_hasColumnEdges s g]
  exact mem_foldl_edgeInsert _ _ e he

theorem akeys_fkEdges_load_idem (s : DatabaseSchema) (g : GraphState) :
    akeys (load_schema s false (load_schema s false g)).fkEdges
      = akeys (load_schema s false g).fkEdges := by
  rw [load_schema_fkEdges s (load_schema s false g),
    (akeys_createAllNodes_after_load s g).1]
  refine akeys_foldMerge_stable _ _ _ _ ?_
  intro it hit
  rw [load_schema_fkEdges s g]
  exact mem_akeys_foldMerge _ _ _ _ it hit

theorem length_eq_of_akeys_eq {K V : Type} {l₁ l₂ : List (K × V)}
    (h : akeys l₁ = akeys l₂) : l₁.length = l₂.length := by
  have := congrArg List.length h
  simpa [akeys] using this

/-- **C1.** For every `DatabaseSchema` value, calling `SchemaLoader.load_schema`
on it twice with `clean_db = false` produces exactly the same set (and count)
of `Table` nodes, `Column` nodes, `HAS_COLUMN` edges and `EXPLICIT_FK_TO`
edges as calling it once: the second load creates zero new nodes or edges
(the node/edge key lists are unchanged, so merge only refreshes properties).
This holds starting from an arbitrary prior graph state. -/
theorem C1_load_schema_idempotent (s : DatabaseSchema) (g : GraphState) :
    akeys (load_schema s false (load_schema s false g)).tableNodes
        = akeys (load_schema s false g).tableNodes
    ∧ akeys (load_schema s false (load_schema s false g)).columnNodes
        = akeys (load_schema s false g).columnNodes
    ∧ (load_schema s false (load_schema s false g)).hasColumnEdges
        = (load_schema s false g).hasColumnEdges
    ∧ akeys (load_schema s false (load_schema s false g)).fkEdges
        = akeys (load_schema s false g).fkEdges
    ∧ (load_schema s false (load_schema s false g)).tableNodes.length
        = (load_schema s false g).tableNodes.length
    ∧ (load_schema s false (load_schema s false g)).columnNodes.length
        = (load_schema s false g).columnNodes.length
    ∧ (load_schema s false (load_schema s false g)).hasColumnEdges.length
        = (load_schema s false g).hasColumnEdges.length
    ∧ (load_schema s false (load_schema s false g)).fkEdges.length
        = (load_schema s false g).fkEdges.length := by
  refine ⟨akeys_tableNodes_load_idem s g, akeys_columnNodes_load_idem s g,
    hasColumnEdges_load_idem s g, akeys_fkEdges_load_idem s g,
    length_eq_of_akeys_eq (akeys_tableNodes_load_idem s g),
    length_eq_of_akeys_eq (akeys_columnNodes_load_idem s g),
    congrArg List.length (hasColumnEdges_load_idem s g),
    length_eq_of_akeys_eq (akeys_fkEdges_load_idem s g)⟩

/-! ## Junction-table heuristic (claim C2) -/

/-- Exact characterization of the source heuristic: the classification also
requires a non-empty primary key (`and primary_key_cols` in the source). -/
theorem extractIsJunction_iff (columns : List ColumnSchema)
    (fks : List ForeignKeySchema) (pk : List String) :
    extractIsJunction columns fks pk = true ↔
      2 ≤ fks.length ∧ pk ≠ [] ∧ (∀ p ∈ pk, p ∈ fkColumnNames fks) ∧
        ∀ c ∈ columns, c.name ∈ fkColumnNames fks := by
  unfold extractIsJunction
  simp only []
  constructor
  · intro h
    split_ifs at h with h1 h2 h3
    · refine ⟨h1.1, h1.2, ?_, ?_⟩
      · intro p hp
        simpa using List.all_eq_true.mp h2 p hp
      · intro c hc
        by_cases hcp : c.name ∈ pk
        · simpa using List.all_eq_true.mp h2 c.name hcp
        · have hmem : c.name ∈
              (columns.map (·.name)).filter (fun n => decide (n ∉ pk)) := by
            rw [List.mem_filter]
            exact ⟨List.mem_map_of_mem _ hc, by simpa using hcp⟩
          simpa using List.all_eq_true.mp h3 _ hmem
  · rintro ⟨hlen, hpk, hsub, hall⟩
    rw [if_pos ⟨hlen, hpk⟩, if_pos, if_pos]
    · refine List.all_eq_true.mpr ?_
      intro n hn
      rw [List.mem_filter] at hn
      obtain ⟨c, hc, rfl⟩ := List.mem_map.mp hn.1
      simpa using hall c hc
    · refine List.all_eq_true.mpr ?_
      intro p hp
      simpa using hsub p hp

/-- **C2 counterexample.** A two-column pure link table with two foreign keys
but an *empty* primary key: the condition claimed in C2 holds (each column is
FK-constrained, the empty primary-key set is trivially a subset, there are two
foreign keys), yet `extract_schema` classifies `is_junction_table = false`,
because the source additionally requires a non-empty primary key.  So the
claimed "if and only if" is false at this input. -/
theorem C2_counterexample :
    ((extract_schema "public"
        [⟨"link",
          [⟨"a", "INTEGER", false, none⟩, ⟨"b", "INTEGER", false, none⟩],
          [⟨["a"], "public", "t1", ["id"], none, none⟩,
           ⟨["b"], "public", "t2", ["id"], none, none⟩],
          none, [], [], []⟩]).tables.map (fun t => t.is_junction_table)) = [false]
    ∧ claimedJunctionCond
        [⟨"a", "INTEGER", false, none⟩, ⟨"b", "INTEGER", false, none⟩]
        [⟨["a"], "public", "t1", ["id"], none, none⟩,
         ⟨["b"], "public", "t2", ["id"], none, none⟩] [] := by
  constructor
  · rfl
  · decide

/-- **C2 (amended).** For every table produced by `extract_schema`,
`is_junction_table` is true iff the table has at least 2 foreign keys, **a
non-empty primary key**, its primary-key column set is a subset of the
FK-constrained column set, and no column of the table lies outside that set.
In particular a link table with exactly 2 foreign keys whose constrained
columns form the full (non-empty) primary key and no other columns is
classified true, while the same table with one extra non-FK column is
classified false. -/
theorem C2_junction_heuristic_amended :
    (∀ (sn : String) (it : InspectedTable),
      (extractTable sn it).is_junction_table = true ↔
        2 ≤ it.foreign_keys.length ∧ it.primary_key_cols ≠ [] ∧
          (∀ p ∈ it.primary_key_cols, p ∈ fkColumnNames it.foreign_keys) ∧
          ∀ c ∈ it.columns, c.name ∈ fkColumnNames it.foreign_keys)
    ∧ ((extract_schema "public"
          [⟨"order_product",
            [⟨"order_id", "INTEGER", false, none⟩,
             ⟨"product_id", "INTEGER", false, none⟩],
            [⟨["order_id"], "public", "order", ["id"], none, none⟩,
             ⟨["product_id"], "public", "product", ["id"], none, none⟩],
            none, ["order_id", "product_id"], [], []⟩]).tables.map
          (fun t => t.is_junction_table)) = [true]
    ∧ ((extract_schema "public"
          [⟨"order_product",
            [⟨"order_id", "INTEGER", false, none⟩,
             ⟨"product_id", "INTEGER", false, none⟩,
             ⟨"qty", "INTEGER", false, none⟩],
            [⟨["order_id"], "public", "order", ["id"], none, none⟩,
             ⟨["product_id"], "public", "product", ["id"], none, none⟩],
            none, ["order_id", "product_id"], [], []⟩]).tables.map
          (fun t => t.is_junction_table)) = [false] := by
  refine ⟨fun sn it => extractIsJunction_iff it.columns it.foreign_keys it.primary_key_cols,
    rfl, rfl⟩

/-! ## Selection phase (claims C3 and C9) -/

theorem length_filter_not_add_length_filter {α : Type} (p : α → Bool) (l : List α) :
    (l.filter (fun a => !(p a))).length + (l.filter p).length = l.length := by
  induction l with
  | nil => rfl
  | cons a l ih =>
    by_cases h : p a = true <;> simp [List.filter_cons, h] <;> omega

/-- **C3.** With `force_rerun = false` the selection step returns exactly the
entities whose names are not flagged enriched (so N − K of the N entities when
exactly K are flagged), preserving order; with `force_rerun = true` it returns
all N entities; and `run_genesis` forces the re-run whenever `clean_db = true`. -/
theorem C3_selection_resumability (all : List Entity) (names : List String) :
    (getEntitiesToEnrich all (.ok names) false
        = .ok (all.filter (fun e => decide (e.2 ∉ names)))) ∧
    (all.filter (fun e => decide (e.2 ∉ names))).length
        + (all.filter (fun e => decide (e.2 ∈ names))).length = all.length ∧
    (all.filter (fun e => decide (e.2 ∉ names))).Sublist all ∧
    (∀ e, e ∈ all.filter (fun e => decide (e.2 ∉ names)) ↔ e ∈ all ∧ e.2 ∉ names) ∧
    (∀ q : Except String (List String), getEntitiesToEnrich all q true = .ok all) ∧
    (∀ f : Bool, runGenesisIsForced true f = true) := by
  refine ⟨rfl, ?_, List.filter_sublist _, ?_, fun q => rfl, fun f => rfl⟩
  · have h := length_filter_not_add_length_filter (fun e : Entity => decide (e.2 ∈ names)) all
    simpa using h
  · intro e
    rw [List.mem_filter]
    simp

/-- **C9 counterexample.** When the enriched-names query fails (graph store
unreachable), `_get_entities_to_enrich` does *not* propagate a hard failure:
it catches the exception, prints a warning and silently continues the
selection phase with the full entity list.  At this concrete input the
selection returns `ok` with all entities instead of an error. -/
theorem C9_counterexample :
    getEntitiesToEnrich [("Table", "users"), ("Column", "users.id")]
        (.error "Neo4j unreachable") false
      = .ok [("Table", "users"), ("Column", "users.id")] := rfl

/-- **C9 (amended).** If the graph store is unreachable during the selection
phase, the connectivity error is swallowed: the selection logs a warning and
falls back to targeting every entity, and the run continues (no propagation,
no termination). -/
theorem C9_amended (all : List Entity) (msg : String) :
    getEntitiesToEnrich all (.error msg) false = .ok all := rfl

/-! ## Cost gate ordering (claim C4) -/

theorem entityEnrichEvents_not_confirm (n : String)
    (hasEv sOk eOk : String → Bool) :
    ∀ ev ∈ entityEnrichEvents n hasEv sOk eOk, ev.isConfirm = false := by
  intro ev hev
  unfold entityEnrichEvents at hev
  split_ifs at hev
  · cases hev
  · rcases List.mem_cons.mp hev with rfl | hev
    · rfl
    · cases hev
  · rcases List.mem_cons.mp hev with rfl | hev
    · rfl
    · rcases List.mem_cons.mp hev with rfl | hev
      · rfl
      · cases hev
  · rcases List.mem_cons.mp hev with rfl | hev
    · rfl
    · rcases List.mem_cons.mp hev with rfl | hev
      · rfl
      · rcases List.mem_singleton.mp hev with rfl
        rfl

/-- **C4.** With a non-empty target set, the trace of `run_genesis` starts
with the single cost-gate decision: the confirmation is the first event and
the only confirmation event, so every generation call (synthesis or
embedding) comes strictly after it; and if the confirmation is declined the
trace is exactly the one decision — no synthesis call, no embedding call, no
enrichment write, and no further phase runs, leaving only the scaffold. -/
theorem C4_cost_gate_barrier (entities : List Entity) (approved : Bool)
    (hasEv sOk eOk : String → Bool) (hne : entities ≠ []) :
    (runGenesisEvents entities approved hasEv sOk eOk).head?
        = some (GenEvent.costConfirm approved) ∧
    (runGenesisEvents entities approved hasEv sOk eOk).filter GenEvent.isConfirm
        = [GenEvent.costConfirm approved] ∧
    (approved = false →
      runGenesisEvents entities approved hasEv sOk eOk
        = [GenEvent.costConfirm approved]) := by
  have hempty : entities.isEmpty = false := by
    simpa [List.isEmpty_iff] using hne
  unfold runGenesisEvents
  rw [hempty]
  simp only [Bool.false_eq_true, if_false]
  refine ⟨rfl, ?_, ?_⟩
  · rw [List.filter_cons]
    simp only [GenEvent.isConfirm, if_pos]
    congr 1
    split_ifs with happ
    · rw [List.filter_append]
      have h1 : (entities.flatMap
          (fun e => entityEnrichEvents e.2 hasEv sOk eOk)).filter GenEvent.isConfirm
            = [] := by
        rw [List.filter_eq_nil_iff]
        intro ev hev
        rw [List.mem_flatMap] at hev
        obtain ⟨e, _, hev⟩ := hev
        simp [entityEnrichEvents_not_confirm e.2 hasEv sOk eOk ev hev]
      rw [h1]
      rfl
    · rfl
  · intro h
    rw [h]
    rfl

/-- Witness for C4 at a concrete non-empty target set with a declined gate. -/
theorem C4_cost_gate_barrier_witness :
    (runGenesisEvents [("Table", "res_users")] false
          (fun _ => true) (fun _ => true) (fun _ => true)).head?
        = some (GenEvent.costConfirm false) ∧
    (runGenesisEvents [("Table", "res_users")] false
          (fun _ => true) (fun _ => true) (fun _ => true)).filter GenEvent.isConfirm
        = [GenEvent.costConfirm false] ∧
    (false = false →
      runGenesisEvents [("Table", "res_users")] false
          (fun _ => true) (fun _ => true) (fun _ => true)
        = [GenEvent.costConfirm false]) :=
  C4_cost_gate_barrier [("Table", "res_users")] false _ _ _ (by simp)

/-! ## Sampling determinism (claim C8) -/

theorem length_drawSample {α : Type} (state k : Nat) (pool : List α) :
    (drawSample state k pool).length = min k pool.length := by
  induction k generalizing state pool with
  | zero => simp [drawSample]
  | succ k ih =>
    cases pool with
    | nil => simp [drawSample]
    | cons a pool =>
      rw [drawSample]
      simp only [List.length_cons]
      rw [ih]
      have hlt : lcgNext state % (pool.length + 1) < (a :: pool).length := by
        simp only [List.length_cons]
        exact Nat.mod_lt _ (Nat.succ_pos _)
      rw [List.length_eraseIdx_of_lt hlt]
      simp only [List.length_cons, Nat.add_sub_cancel]
      omega

theorem mem_drawSample {α : Type} (state k : Nat) (pool : List α) :
    ∀ x ∈ drawSample state k pool, x ∈ pool := by
  induction k generalizing state pool with
  | zero => simp [drawSample]
  | succ k ih =>
    cases pool with
    | nil => simp [drawSample]
    | cons a pool =>
      intro x hx
      rw [drawSample] at hx
      rcases List.mem_cons.mp hx with heq | hmem
      · rw [heq]; exact List.get_mem _ _ _
      · exact List.eraseIdx_subset _ _ (ih _ _ x hmem)

/-- **C8.** The sampling step of `run_genesis` re-seeds the generator with the
fixed seed 42 immediately before drawing, so the selected subset is
independent of the generator's prior state: two runs against the same target
list pick the same subset, of size `min S N`, drawn from the target list. -/
theorem C8_sampling_determinism (rng1 rng2 : Nat) (entities : List Entity) (k : Nat) :
    (∀ sample_size : Option Nat,
      runGenesisSampleStep rng1 entities sample_size
        = runGenesisSampleStep rng2 entities sample_size) ∧
    (runGenesisSampleStep rng1 entities (some (k + 1))).length
        = min (k + 1) entities.length ∧
    (∀ x ∈ runGenesisSampleStep rng1 entities (some (k + 1)), x ∈ entities) := by
  refine ⟨fun sample_size => rfl, ?_, ?_⟩
  · show (drawSample 42 (min (k + 1) entities.length) entities).length = _
    rw [length_drawSample, Nat.min_assoc, Nat.min_self]
  · intro x hx
    exact mem_drawSample _ _ _ x hx

/-- Witness for C8 at a concrete prior-state pair and target list. -/
theorem C8_sampling_determinism_witness :
    (∀ sample_size : Option Nat,
      runGenesisSampleStep 7 [("Table", "a"), ("Table", "b"), ("Table", "c")] sample_size
        = runGenesisSampleStep 99 [("Table", "a"), ("Table", "b"), ("Table", "c")] sample_size) ∧
    (runGenesisSampleStep 7 [("Table", "a"), ("Table", "b"), ("Table", "c")] (some 2)).length
        = min 2 [("Table", "a"), ("Table", "b"), ("Table", "c")].length ∧
    (∀ x ∈ runGenesisSampleStep 7 [("Table", "a"), ("Table", "b"), ("Table", "c")] (some 2),
      x ∈ [("Table", "a"), ("Table", "b"), ("Table", "c")]) :=
  C8_sampling_determinism 7 99 [("Table", "a"), ("Table", "b"), ("Table", "c")] 1

/-! ## Data profiler (claim C6) -/

/-- The classification thresholds, exactly: at least the minimum row count,
distinct count strictly below the absolute cap, and distinct-to-total ratio
strictly below `0.1`. -/
theorem profilerIsLikelyCategorical_iff (total distinct : Nat) :
    profilerIsLikelyCategorical total distinct = true ↔
      MINIMUM_ROWS_FOR_ANALYSIS ≤ total ∧ distinct < MAX_DISTINCT_VALUES ∧
        10 * distinct < total := by
  unfold profilerIsLikelyCategorical MINIMUM_ROWS_FOR_ANALYSIS MAX_DISTINCT_VALUES
  split_ifs with h1 h2
  · simp only [decide_eq_true_eq]
    exact ⟨fun h => ⟨h1.1, h1.2, h⟩, fun h => h.2.2⟩
  · constructor
    · intro _
      exact absurd (Nat.lt_of_lt_of_le (by norm_num) h1.1) h2
    · intro h
      exact absurd (Nat.lt_of_lt_of_le (by norm_num) h.1) h2
  · constructor
    · intro h
      cases h
    · intro h
      exact absurd ⟨h.1, h.2.1⟩ h1

/-- **C6 counterexample.** A 50-row column whose values are all NULL:
`total_rows = 50`, `distinct_count = 0`, so the column *is* classified likely
categorical (50 ≥ 50, 0 < 30, ratio 0 < 0.1), but the distinct-value fetch
returns no rows and `_build_evidence_chunk` omits the distinct-value set
(`if distincts:` is false for an empty list) — the evidence is only the
empty-column note.  So "evidence includes the sorted distinct-value set
exactly when classified categorical" fails at this input. -/
theorem C6_counterexample :
    profilerIsLikelyCategorical 50 0 = true ∧
    smartDataProfilerAnalyze "Column" "t.c" ⟨.ok (50, 0), [], .ok []⟩
      = some ⟨"DataProfile", [ProfLine.emptyColumnNote]⟩ ∧
    (∀ ds, ProfLine.distinctValues ds ∉
      (⟨"DataProfile", [ProfLine.emptyColumnNote]⟩ : ProfilerChunk).contentLines) := by
  refine ⟨by decide, by decide, ?_⟩
  intro ds h
  rcases List.mem_singleton.mp h with h
  cases h

/-- **C6 (amended).** A profiled column is classified likely categorical iff
total rows ≥ the minimum threshold AND distinct count < the absolute cap AND
distinct/total < the relative cap; the evidence includes the sorted
distinct-value set exactly when the column is classified categorical *and*
the distinct-value fetch returned at least one value (an all-NULL column is
classified categorical yet yields no distinct-value list); random samples are
included regardless of classification whenever any were fetched.  Scenario:
1000 rows / 4 distinct values yields the sorted 4 distinct values; 1000 rows
/ 500 distinct values yields only random samples. -/
theorem C6_data_profiler_amended :
    (∀ total distinct,
      profilerIsLikelyCategorical total distinct = true ↔
        MINIMUM_ROWS_FOR_ANALYSIS ≤ total ∧ distinct < MAX_DISTINCT_VALUES ∧
          10 * distinct < total) ∧
    (∀ (name : String) (samples vals : List String) (total distinct : Nat),
      '.' ∈ name.data →
      profilerIsLikelyCategorical total distinct = true →
      smartDataProfilerAnalyze "Column" name ⟨.ok (total, distinct), samples, .ok vals⟩
        = some (buildEvidenceChunk samples (some (pySorted vals)))) ∧
    (∀ (name : String) (samples vals : List String) (total distinct : Nat),
      '.' ∈ name.data →
      profilerIsLikelyCategorical total distinct = false →
      smartDataProfilerAnalyze "Column" name ⟨.ok (total, distinct), samples, .ok vals⟩
        = some (buildEvidenceChunk samples none)) ∧
    (∀ (samples ds : List String), ds ≠ [] →
      ProfLine.distinctValues ds ∈ (buildEvidenceChunk samples (some ds)).contentLines) ∧
    (∀ (samples ds : List String),
      ProfLine.distinctValues ds ∉ (buildEvidenceChunk samples none).contentLines) ∧
    (∀ (samples : List String) (dopt : Option (List String)), samples ≠ [] →
      ProfLine.sampleValues samples ∈ (buildEvidenceChunk samples dopt).contentLines) ∧
    (smartDataProfilerAnalyze "Column" "orders.status"
        ⟨.ok (1000, 4), ["v1", "v2"], .ok ["b", "a", "d", "c"]⟩
      = some ⟨"DataProfile",
          [ProfLine.sampleValues ["v1", "v2"], ProfLine.cardinalityLowRelative,
           ProfLine.distinctValues ["a", "b", "c", "d"]]⟩) ∧
    (smartDataProfilerAnalyze "Column" "orders.code"
        ⟨.ok (1000, 500), ["v1", "v2"], .ok []⟩
      = some ⟨"DataProfile", [ProfLine.sampleValues ["v1", "v2"]]⟩) := by
  refine ⟨profilerIsLikelyCategorical_iff, ?_, ?_, ?_, ?_, ?_, by decide, by decide⟩
  · intro name samples vals total distinct hdot hcat
    unfold smartDataProfilerAnalyze
    rw [if_neg (by simp), if_neg (by simpa using hdot)]
    simp only [hcat, if_true]
  · intro name samples vals total distinct hdot hcat
    unfold smartDataProfilerAnalyze
    rw [if_neg (by simp), if_neg (by simpa using hdot)]
    simp only [hcat]
    rfl
  · intro samples ds hds
    by_cases hs : samples = [] <;>
      simp [buildEvidenceChunk, buildEvidenceLines, hds, hs]
  · intro samples ds
    by_cases hs : samples = [] <;>
      simp [buildEvidenceChunk, buildEvidenceLines, hs]
  · intro samples dopt hs
    rcases dopt with _ | ds
    · simp [buildEvidenceChunk, buildEvidenceLines, hs]
    · by_cases hds : ds = [] <;>
        simp [buildEvidenceChunk, buildEvidenceLines, hs, hds]

/-- Witness for C6 at a concrete categorical column with fetched values. -/
theorem C6_data_profiler_amended_witness :
    ('.' ∈ ("t.c" : String).data) ∧
    profilerIsLikelyCategorical 1000 4 = true ∧
    smartDataProfilerAnalyze "Column" "t.c" ⟨.ok (1000, 4), ["x"], .ok ["b", "a"]⟩
      = some (buildEvidenceChunk ["x"] (some (pySorted ["b", "a"]))) :=
  ⟨by decide, by decide,
    C6_data_profiler_amended.2.1 "t.c" ["x"] ["b", "a"] 1000 4 (by decide) (by decide)⟩

/-! ## Cost estimation monotonicity (claim C7) -/

theorem price_per_input_token_nonneg (c : EnrichmentCostCalculator)
    (hin : 0 ≤ c.settings.synthesis_price_input_usd_per_mtkn) :
    0 ≤ c.price_per_input_token := by
  unfold EnrichmentCostCalculator.price_per_input_token
  exact div_nonneg hin (by norm_num)

theorem price_per_output_token_nonneg (c : EnrichmentCostCalculator)
    (hout : 0 ≤ c.settings.synthesis_price_output_usd_per_mtkn) :
    0 ≤ c.price_per_output_token := by
  unfold EnrichmentCostCalculator.price_per_output_token
  exact div_nonneg hout (by norm_num)

/-- Total estimated cost is monotone in the two token totals when the
configured prices are non-negative. -/
theorem token_cost_mono (c : EnrichmentCostCalculator)
    (hin : 0 ≤ c.settings.synthesis_price_input_usd_per_mtkn)
    (hout : 0 ≤ c.settings.synthesis_price_output_usd_per_mtkn)
    {i1 i2 o1 o2 : Nat} (hi : i1 ≤ i2) (ho : o1 ≤ o2) :
    (i1 : ℚ) * c.price_per_input_token + (o1 : ℚ) * c.price_per_output_token
      ≤ (i2 : ℚ) * c.price_per_input_token + (o2 : ℚ) * c.price_per_output_token := by
  refine add_le_add ?_ ?_
  · exact mul_le_mul_of_nonneg_right (by exact_mod_cast hi)
      (price_per_input_token_nonneg c hin)
  · exact mul_le_mul_of_nonneg_right (by exact_mod_cast ho)
      (price_per_output_token_nonneg c hout)

theorem estimate_cost_total (c : EnrichmentCostCalculator) (l : List Entity)
    (em : String → List EvidenceChunk) :
    (c.estimate_cost l em).total_estimated_cost_usd
      = ((l.map (entityInputTokens c em)).sum : ℚ) * c.price_per_input_token
        + ((estimated_output_tokens_per_entity * l.length : Nat) : ℚ)
            * c.price_per_output_token := rfl

/-- **C7.** The estimated total cost of `estimate_cost` is (for non-negative
configured prices) non-decreasing in the number of entities — appending an
entity with any evidence never lowers the estimate, for *any* tokenizer —
and non-decreasing in the evidence text of any entity: whenever the tokenizer
assigns no fewer tokens to each entity's (joined) evidence text, the estimate
does not decrease; under the deterministic character-count fallback
(`tokenizer = none`, one token per 4 characters) this holds whenever each
entity's evidence text is no shorter, so monotonicity in evidence length is
preserved by the fallback. -/
theorem C7_cost_monotonicity (c : EnrichmentCostCalculator)
    (hin : 0 ≤ c.settings.synthesis_price_input_usd_per_mtkn)
    (hout : 0 ≤ c.settings.synthesis_price_output_usd_per_mtkn) :
    (∀ (entities : List Entity) (extra : Entity) (em : String → List EvidenceChunk),
      (c.estimate_cost entities em).total_estimated_cost_usd
        ≤ (c.estimate_cost (entities ++ [extra]) em).total_estimated_cost_usd) ∧
    (∀ (entities : List Entity) (em em' : String → List EvidenceChunk),
      (∀ n, c.count_tokens (evidenceString (em n))
          ≤ c.count_tokens (evidenceString (em' n))) →
      (c.estimate_cost entities em).total_estimated_cost_usd
        ≤ (c.estimate_cost entities em').total_estimated_cost_usd) ∧
    (c.tokenizer = none →
      ∀ (entities : List Entity) (em em' : String → List EvidenceChunk),
      (∀ n, (evidenceString (em n)).length ≤ (evidenceString (em' n)).length) →
      (c.estimate_cost entities em).total_estimated_cost_usd
        ≤ (c.estimate_cost entities em').total_estimated_cost_usd) := by
  have hmono : ∀ (entities : List Entity) (em em' : String → List EvidenceChunk),
      (∀ n, c.count_tokens (evidenceString (em n))
          ≤ c.count_tokens (evidenceString (em' n))) →
      (c.estimate_cost entities em).total_estimated_cost_usd
        ≤ (c.estimate_cost entities em').total_estimated_cost_usd := by
    intro entities em em' hev
    rw [estimate_cost_total, estimate_cost_total]
    refine token_cost_mono c hin hout ?_ le_rfl
    refine List.sum_le_sum ?_
    intro e _
    unfold entityInputTokens
    exact Nat.add_le_add_left (hev e.2) _
  refine ⟨?_, hmono, ?_⟩
  · intro entities extra em
    rw [estimate_cost_total, estimate_cost_total]
    refine token_cost_mono c hin hout ?_ ?_
    · rw [List.map_append, List.sum_append]
      exact Nat.le_add_right _ _
    · rw [List.length_append]
      exact Nat.mul_le_mul_left _ (Nat.le_add_right _ _)
  · intro htok entities em em' hlen
    refine hmono entities em em' ?_
    intro n
    unfold EnrichmentCostCalculator.count_tokens
    rw [htok]
    exact Nat.div_le_div_right (hlen n)

/-- Witness for C7: a concrete fallback calculator, adding one entity and
lengthening one entity's evidence. -/
theorem C7_cost_monotonicity_witness :
    (0 : ℚ) ≤ 5 ∧ (0 : ℚ) ≤ 15 ∧
    ((EnrichmentCostCalculator.mk none ⟨"gemini-1.5-pro", 5, 15⟩).estimate_cost
        [("Table", "res_users")] (fun _ => [])).total_estimated_cost_usd
      ≤ ((EnrichmentCostCalculator.mk none ⟨"gemini-1.5-pro", 5, 15⟩).estimate_cost
        ([("Table", "res_users")] ++ [("Column", "res_users.id")])
          (fun _ => [])).total_estimated_cost_usd ∧
    ((EnrichmentCostCalculator.mk none ⟨"gemini-1.5-pro", 5, 15⟩).tokenizer = none →
      ∀ (entities : List Entity) (em em' : String → List EvidenceChunk),
      (∀ n, (evidenceString (em n)).length ≤ (evidenceString (em' n)).length) →
      ((EnrichmentCostCalculator.mk none ⟨"gemini-1.5-pro", 5, 15⟩).estimate_cost
          entities em).total_estimated_cost_usd
        ≤ ((EnrichmentCostCalculator.mk none ⟨"gemini-1.5-pro", 5, 15⟩).estimate_cost
          entities em').total_estimated_cost_usd) :=
  ⟨by norm_num, by norm_num,
    (C7_cost_monotonicity _ (by norm_num) (by norm_num)).1
      [("Table", "res_users")] ("Column", "res_users.id") (fun _ => []),
    (C7_cost_monotonicity _ (by norm_num) (by norm_num)).2.2⟩

/-! ## Synthesis robustness (claim C5) -/

theorem dropWhile_append_of_all {α : Type} (p : α → Bool) (l1 l2 : List α)
    (h : ∀ x ∈ l1, p x = true) :
    (l1 ++ l2).dropWhile p = l2.dropWhile p := by
  induction l1 with
  | nil => rfl
  | cons a l ih =>
    rw [List.cons_append, List.dropWhile_cons, if_pos (h a (List.mem_cons_self a l))]
    exact ih (fun x hx => h x (List.mem_cons_of_mem a hx))

/-- The greedy dot-all regex of `_parse_llm_response` recovers exactly the
JSON object when the prose before it has no opening brace and the prose after
it has no closing brace. -/
theorem braceSpan_prose (pre mid post : List Char)
    (hpre : '\x7b' ∉ pre) (hpost : '\x7d' ∉ post) :
    braceSpan (pre ++ ('\x7b' :: (mid ++ ['\x7d'])) ++ post)
      = some ('\x7b' :: (mid ++ ['\x7d'])) := by
  have hdrop1 : (pre ++ ('\x7b' :: (mid ++ ['\x7d'])) ++ post).dropWhile
      (fun c => decide (c ≠ '\x7b')) = '\x7b' :: ((mid ++ ['\x7d']) ++ post) := by
    rw [List.append_assoc]
    rw [dropWhile_append_of_all _ pre _ (fun x hx => by
      simp only [ne_eq, decide_eq_true_eq]
      exact fun heq => hpre (heq ▸ hx))]
    rw [List.cons_append, List.dropWhile_cons, if_neg (by simp)]
  have hrev : ('\x7b' :: ((mid ++ ['\x7d']) ++ post)).reverse
      = post.reverse ++ ('\x7d' :: (mid.reverse ++ ['\x7b'])) := by
    simp
  have hdrop2 : (post.reverse ++ ('\x7d' :: (mid.reverse ++ ['\x7b']))).dropWhile
      (fun c => decide (c ≠ '\x7d')) = '\x7d' :: (mid.reverse ++ ['\x7b']) := by
    rw [dropWhile_append_of_all _ _ _ (fun x hx => by
      simp only [ne_eq, decide_eq_true_eq]
      exact fun heq => hpost (heq ▸ List.mem_reverse.mp hx))]
    rw [List.dropWhile_cons, if_neg (by simp)]
  unfold braceSpan
  simp only []
  rw [hdrop1, if_neg (List.cons_ne_nil _ _), hrev, hdrop2,
    if_neg (List.cons_ne_nil _ _)]
  simp

set_option maxRecDepth 65536 in
/-- **C5 counterexample.** The well-formed `CoreDescription` JSON object
`goodJsonObject` synthesizes successfully on its own, and it occurs, as the
first (and only) well-formed JSON object, inside a response that merely
surrounds it with explanatory prose — but because the prose after it
mentions a closing brace, the greedy regex spans from the object's opening
brace to that later closing brace, the span is not valid JSON, and
`synthesize` returns `None` instead of extracting the first well-formed JSON
object.  So the claim, as stated for every raw response string, is false at
this input. -/
theorem C5_counterexample :
    synthesize (.ok goodJsonObject)
      = some ⟨"Stores application user accounts.", none, "Master", mkRat 9 10⟩ ∧
    (proseBefore ++ goodJsonObject ++ proseAfterBrace).data
      = proseBefore.data ++ goodJsonObject.data ++ proseAfterBrace.data ∧
    synthesize (.ok (proseBefore ++ goodJsonObject ++ proseAfterBrace)) = none := by
  refine ⟨by decide, by decide, by decide⟩

set_option maxRecDepth 65536 in
/-- **C5 (amended).** `synthesize` extracts the greedy substring from the
first opening brace to the last closing brace of the response and parses it:
a well-formed JSON object surrounded by explanatory prose is still extracted
and validated provided the prose before it contains no opening brace and the
prose after it no closing brace (a later closing brace makes the greedy span
unparseable).  Every failing input — provider error, empty response, no
parseable span, or a span failing `CoreDescription` validation — yields
`None`, and `synthesize` is a total function, so no exception passes its
boundary. -/
theorem C5_synthesis_robustness_amended :
    (∀ msg : String, synthesize (.error msg) = none) ∧
    synthesize (.ok "") = none ∧
    (∀ (r m : String), parse_llm_response r = .error m → synthesize (.ok r) = none) ∧
    (∀ (r : String) (j : Json), parse_llm_response r = .ok j →
      validateCoreDescription j = none → synthesize (.ok r) = none) ∧
    (∀ (r : String) (j : Json) (d : CoreDescription), parse_llm_response r = .ok j →
      validateCoreDescription j = some d → synthesize (.ok r) = some d) ∧
    (∀ pre mid post : List Char, '\x7b' ∉ pre → '\x7d' ∉ post →
      braceSpan (pre ++ ('\x7b' :: (mid ++ ['\x7d'])) ++ post)
        = some ('\x7b' :: (mid ++ ['\x7d']))) ∧
    synthesize (.ok (proseBefore ++ goodJsonObject ++ proseAfterClean))
      = some ⟨"Stores application user accounts.", none, "Master", mkRat 9 10⟩ := by
  refine ⟨fun msg => rfl, by decide, ?_, ?_, ?_, braceSpan_prose, by decide⟩
  · intro r m h
    unfold synthesize
    by_cases hr : r = ""
    · simp [hr]
    · simp [hr, h]
  · intro r j hp hv
    unfold synthesize
    by_cases hr : r = ""
    · simp [hr]
    · simp [hr, hp, hv]
  · intro r j d hp hv
    unfold synthesize
    by_cases hr : r = ""
    · subst hr
      have : parse_llm_response ""
          = .error "No valid JSON object found in the LLM response." := by
        with_unfolding_all rfl
      rw [this] at hp
      cases hp
    · simp [hr, hp, hv]

set_option maxRecDepth 65536 in
/-- Witness for C5 at the concrete fixture response. -/
theorem C5_synthesis_robustness_amended_witness :
    parse_llm_response goodJsonObject
      = .ok (Json.obj
          [("core_description", Json.str "Stores application user accounts."),
           ("inferred_logic", Json.null),
           ("stereotype", Json.str "Master"),
           ("confidence", Json.num (mkRat 9 10))]) ∧
    validateCoreDescription (Json.obj
          [("core_description", Json.str "Stores application user accounts."),
           ("inferred_logic", Json.null),
           ("stereotype", Json.str "Master"),
           ("confidence", Json.num (mkRat 9 10))])
      = some ⟨"Stores application user accounts.", none, "Master", mkRat 9 10⟩ ∧
    synthesize (.ok goodJsonObject)
      = some ⟨"Stores application user accounts.", none, "Master", mkRat 9 10⟩ := by
  have hp : parse_llm_response goodJsonObject
      = .ok (Json.obj
          [("core_description", Json.str "Stores application user accounts."),
           ("inferred_logic", Json.null),
           ("stereotype", Json.str "Master"),
           ("confidence", Json.num (mkRat 9 10))]) := by
    with_unfolding_all rfl
  have hv : validateCoreDescription (Json.obj
          [("core_description", Json.str "Stores application user accounts."),
           ("inferred_logic", Json.null),
           ("stereotype", Json.str "Master"),
           ("confidence", Json.num (mkRat 9 10))])
      = some ⟨"Stores application user accounts.", none, "Master", mkRat 9 10⟩ := by
    decide
  exact ⟨hp, hv, C5_synthesis_robustness_amended.2.2.2.2.1 _ _ _ hp hv⟩

/-! ## `EXPLICIT_FK_TO` merge per table pair (claim C10) -/

theorem alookup_cons {K V : Type} [DecidableEq K] (q : K) (kv : K × V)
    (rest : List (K × V)) :
    alookup q (kv :: rest) = if kv.1 = q then some kv.2 else alookup q rest := rfl

theorem alookup_isSome_iff_mem_akeys {K V : Type} [DecidableEq K]
    (q : K) (l : List (K × V)) :
    (alookup q l).isSome = true ↔ q ∈ akeys l := by
  induction l with
  | nil => simp [alookup, akeys]
  | cons kv rest ih =>
    rw [alookup_cons, show akeys (kv :: rest) = kv.1 :: akeys rest from rfl,
      List.mem_cons]
    by_cases h : kv.1 = q
    · simp [h, eq_comm]
    · rw [if_neg h, ih]
      constructor
      · exact Or.inr
      · rintro (heq | hm)
        · exact absurd heq.symm h
        · exact hm

theorem mem_akeys_of_alookup_eq_some {K V : Type} [DecidableEq K]
    {q : K} {l : List (K × V)} {v : V} (h : alookup q l = some v) :
    q ∈ akeys l :=
  (alookup_isSome_iff_mem_akeys q l).mp (by simp [h])

theorem alookup_append {K V : Type} [DecidableEq K] (q : K) (xs ys : List (K × V)) :
    alookup q (xs ++ ys)
      = match alookup q xs with
        | some v => some v
        | none => alookup q ys := by
  induction xs with
  | nil => simp [alookup]
  | cons kv rest ih =>
    by_cases h : kv.1 = q <;> simp [alookup, h, ih]

theorem alookup_map_update_ne {K V : Type} [DecidableEq K]
    (l : List (K × V)) (k q : K) (f : V → V) (h : q ≠ k) :
    alookup q (l.map (fun kv => if kv.1 = k then (kv.1, f kv.2) else kv))
      = alookup q l := by
  induction l with
  | nil => rfl
  | cons kv rest ih =>
    rw [List.map_cons]
    by_cases h1 : kv.1 = k
    · have h2 : ¬ kv.1 = q := fun he => h (he ▸ h1)
      rw [if_pos h1, alookup_cons, alookup_cons, if_neg h2, if_neg h2, ih]
    · rw [if_neg h1, alookup_cons, alookup_cons, ih]

theorem alookup_map_update_self {K V : Type} [DecidableEq K]
    (l : List (K × V)) (k : K) (f : V → V) :
    alookup k (l.map (fun kv => if kv.1 = k then (kv.1, f kv.2) else kv))
      = (alookup k l).map f := by
  induction l with
  | nil => rfl
  | cons kv rest ih =>
    rw [List.map_cons]
    by_cases h1 : kv.1 = k
    · rw [if_pos h1, alookup_cons, alookup_cons, if_pos h1, if_pos h1]
      rfl
    · rw [if_neg h1, alookup_cons, alookup_cons, if_neg h1, if_neg h1, ih]

theorem alookup_mergeAL_ne {K V A : Type} [DecidableEq K]
    (om : A → V → V) (oc : A → V) (l : List (K × V)) (k q : K) (a : A)
    (h : q ≠ k) :
    alookup q (mergeAL om oc l k a) = alookup q l := by
  unfold mergeAL
  split_ifs with hk
  · exact alookup_map_update_ne l k q (om a) h
  · rw [alookup_append]
    cases hl : alookup q l with
    | none =>
      simp [alookup]
      exact fun he => h he.symm
    | some v => rfl

theorem alookup_mergeAL_self_mem {K V A : Type} [DecidableEq K]
    (om : A → V → V) (oc : A → V) (l : List (K × V)) (k : K) (a : A)
    (h : k ∈ akeys l) :
    alookup k (mergeAL om oc l k a) = (alookup k l).map (om a) := by
  unfold mergeAL
  rw [if_pos h]
  exact alookup_map_update_self l k (om a)

theorem alookup_mergeAL_self_not_mem {K V A : Type} [DecidableEq K]
    (om : A → V → V) (oc : A → V) (l : List (K × V)) (k : K) (a : A)
    (h : k ∉ akeys l) :
    alookup k (mergeAL om oc l k a) = some (oc a) := by
  unfold mergeAL
  rw [if_neg h, alookup_append]
  have hnone : alookup k l = none := by
    cases hh : alookup k l with
    | none => rfl
    | some v => exact absurd (mem_akeys_of_alookup_eq_some hh) h
  rw [hnone]
  simp [alookup]

theorem akeys_nodup_mergeAL {K V A : Type} [DecidableEq K]
    (om : A → V → V) (oc : A → V) (l : List (K × V)) (k : K) (a : A)
    (h : (akeys l).Nodup) : (akeys (mergeAL om oc l k a)).Nodup := by
  rw [akeys_mergeAL]
  split_ifs with hk
  · exact h
  · simpa [List.nodup_append] using ⟨h, hk⟩

theorem akeys_nodup_foldMerge {K V A : Type} [DecidableEq K]
    (om : A → V → V) (oc : A → V) (items : List (K × A)) (l : List (K × V))
    (h : (akeys l).Nodup) : (akeys (foldMerge om oc items l)).Nodup := by
  induction items generalizing l with
  | nil => exact h
  | cons it rest ih => exact ih _ (akeys_nodup_mergeAL om oc l it.1 it.2 h)

theorem countKey_eq_count {K V : Type} [DecidableEq K] (q : K) (l : List (K × V)) :
    countKey q l = (akeys l).count q := by
  induction l with
  | nil => rfl
  | cons kv rest ih =>
    unfold countKey
    rw [List.filter_cons]
    by_cases h : kv.1 = q
    · rw [if_pos (by simpa using h),
        show akeys (kv :: rest) = kv.1 :: akeys rest from rfl, h,
        List.count_cons_self, List.length_cons]
      exact congrArg (· + 1) ih
    · rw [if_neg (by simpa using h),
        show akeys (kv :: rest) = kv.1 :: akeys rest from rfl,
        List.count_cons_of_ne (fun he => h he.symm)]
      exact ih

theorem countKey_le_one_of_nodup {K V : Type} [DecidableEq K]
    (q : K) (l : List (K × V)) (h : (akeys l).Nodup) : countKey q l ≤ 1 := by
  rw [countKey_eq_count]
  exact List.nodup_iff_count_le_one.mp h q

/-- Fold characterization, existing edge: the stored column lists survive and
only the actions are overwritten, by the last row with the same pair key. -/
theorem foldMerge_fk_alookup_present
    (items : List ((String × String) × FKProps))
    (l : List ((String × String) × FKProps)) (q : String × String) (P : FKProps)
    (h : alookup q l = some P) :
    alookup q (foldMerge fkOnMatch id items l)
      = some (match alookup q items.reverse with
              | none => P
              | some a => fkOnMatch a P) := by
  induction items generalizing l P with
  | nil => simpa [foldMerge, alookup] using h
  | cons it rest ih =>
    have hfold : foldMerge fkOnMatch id (it :: rest) l
        = foldMerge fkOnMatch id rest (mergeAL fkOnMatch id l it.1 it.2) := rfl
    by_cases hq : it.1 = q
    · have hk : q ∈ akeys l := mem_akeys_of_alookup_eq_some h
      have h1 : alookup q (mergeAL fkOnMatch id l it.1 it.2)
          = some (fkOnMatch it.2 P) := by
        rw [hq, alookup_mergeAL_self_mem _ _ _ _ _ hk, h]
        rfl
      rw [hfold, ih _ _ h1, List.reverse_cons, alookup_append]
      cases halt : alookup q rest.reverse with
      | none => simp [alookup, hq]
      | some a => rfl
    · have h1 : alookup q (mergeAL fkOnMatch id l it.1 it.2) = some P := by
        rw [alookup_mergeAL_ne _ _ _ _ _ _ (fun he => hq he.symm)]
        exact h
      rw [hfold, ih _ _ h1, List.reverse_cons, alookup_append]
      cases halt : alookup q rest.reverse with
      | none => simp [alookup, hq]
      | some a => rfl

/-- Fold characterization, fresh pair key: the edge is created by the first
row with that pair key (its column lists persist) and its actions are those
of the last row with that pair key. -/
theorem foldMerge_fk_alookup_absent
    (items : List ((String × String) × FKProps))
    (l : List ((String × String) × FKProps)) (q : String × String)
    (f g : FKProps)
    (hq : q ∉ akeys l)
    (hf : alookup q items = some f)
    (hg : alookup q items.reverse = some g) :
    alookup q (foldMerge fkOnMatch id items l)
      = some ⟨f.constrained_columns, f.referred_columns,
              g.on_update, g.on_delete⟩ := by
  induction items generalizing l with
  | nil => cases hf
  | cons it rest ih =>
    have hfold : foldMerge fkOnMatch id (it :: rest) l
        = foldMerge fkOnMatch id rest (mergeAL fkOnMatch id l it.1 it.2) := rfl
    rw [List.reverse_cons, alookup_append] at hg
    by_cases hq1 : it.1 = q
    · have hstep : alookup q (mergeAL fkOnMatch id l it.1 it.2) = some it.2 := by
        rw [hq1, alookup_mergeAL_self_not_mem _ _ _ _ _ hq]
        rfl
      have hf' : f = it.2 := by
        rw [show alookup q (it :: rest) = some it.2 from by simp [alookup, hq1]] at hf
        exact (Option.some.inj hf).symm
      rw [hfold, foldMerge_fk_alookup_present rest _ q it.2 hstep]
      cases halt : alookup q rest.reverse with
      | none =>
        rw [halt] at hg
        have hg' : g = it.2 := by
          simpa [alookup, hq1] using hg.symm
        rw [hf', hg']
      | some a =>
        rw [halt] at hg
        have hg' : a = g := Option.some.inj hg
        rw [hf', hg']
        rfl
    · have hq' : q ∉ akeys (mergeAL fkOnMatch id l it.1 it.2) := by
        rw [akeys_mergeAL]
        split_ifs with hk
        · exact hq
        · intro hmem
          rcases List.mem_append.mp hmem with hmem | hmem
          · exact hq hmem
          · exact hq1 (List.mem_singleton.mp hmem).symm
      have hf' : alookup q rest = some f := by
        rw [show alookup q (it :: rest) = alookup q rest from by simp [alookup, hq1]] at hf
        exact hf
      have hg' : alookup q rest.reverse = some g := by
        cases halt : alookup q rest.reverse with
        | none =>
          rw [halt] at hg
          simp [alookup, hq1] at hg
        | some a =>
          rw [halt] at hg
          exact hg
      rw [hfold]
      exact ih _ hq' hf' hg'

theorem alookup_eq_head_filter {K V : Type} [DecidableEq K]
    (q : K) (items : List (K × V)) :
    alookup q items
      = ((items.filter (fun it => it.1 = q)).head?).map Prod.snd := by
  induction items with
  | nil => rfl
  | cons it rest ih =>
    by_cases h : it.1 = q <;> simp [alookup, List.filter_cons, h, ih]

theorem alookup_reverse_eq_getLast_filter {K V : Type} [DecidableEq K]
    (q : K) (items : List (K × V)) :
    alookup q items.reverse
      = ((items.filter (fun it => it.1 = q)).getLast?).map Prod.snd := by
  rw [alookup_eq_head_filter, List.filter_reverse, List.head?_reverse]

/-- Every fk row of a table carries that table's name as the source key. -/
theorem fkItemOf_key_fst (TK : List String) (t : TableSchema)
    (fk : ForeignKeySchema) (it : (String × String) × FKProps)
    (h : fkItemOf TK t fk = some it) : it.1.1 = t.table_name := by
  unfold fkItemOf at h
  split_ifs at h with hc
  exact Option.some.inj h ▸ rfl

/-- The fk rows of one table, filtered to the pair key `(t.table_name, B)`,
are exactly the table's foreign keys referring to `B`, in declaration order
(both endpoints being present in the graph). -/
theorem filter_key_fkItemOf (TK : List String) (t : TableSchema) (B : String)
    (fks : List ForeignKeySchema) (hA : t.table_name ∈ TK) (hB : B ∈ TK) :
    (fks.filterMap (fkItemOf TK t)).filter (fun it => it.1 = (t.table_name, B))
      = (fks.filter (fun fk => fk.referred_table = B)).map
          (fun fk => ((t.table_name, B), fkPropsOf fk)) := by
  induction fks with
  | nil => rfl
  | cons fk rest ih =>
    rw [List.filterMap_cons, List.filter_cons]
    by_cases hrt : fk.referred_table = B
    · have hsome : fkItemOf TK t fk = some ((t.table_name, B), fkPropsOf fk) := by
        unfold fkItemOf
        rw [if_pos ⟨hA, hrt ▸ hB⟩, hrt]
      rw [hsome, if_pos (by simpa using hrt)]
      simp only []
      rw [List.filter_cons, if_pos (by simp), List.map_cons, ih]
    · rw [if_neg (by simpa using hrt)]
      cases hcase : fkItemOf TK t fk with
      | none => exact ih
      | some it =>
        have h1 : ¬ it.1 = (t.table_name, B) := by
          unfold fkItemOf at hcase
          split_ifs at hcase with hc
          rw [← Option.some.inj hcase]
          simp [hrt]
        simp only []
        rw [List.filter_cons, if_neg (by simpa using h1)]
        exact ih

/-- A table with a different name contributes no row with the pair key
`(A, B)`. -/
theorem filter_key_block_ne (TK : List String) (t : TableSchema) (A B : String)
    (h : t.table_name ≠ A) :
    (t.foreign_keys.filterMap (fkItemOf TK t)).filter
        (fun it => it.1 = (A, B)) = [] := by
  rw [List.filter_eq_nil_iff]
  intro it hit
  obtain ⟨fk, _, hsome⟩ := List.mem_filterMap.mp hit
  have hfst := fkItemOf_key_fst TK t fk it hsome
  simp only [decide_eq_true_eq]
  intro he
  exact h (by rw [← hfst, he])

theorem filter_key_blocks_ne (TK : List String) (tables : List TableSchema)
    (A B : String) (h : ∀ t ∈ tables, t.table_name ≠ A) :
    (tables.flatMap (fun t => t.foreign_keys.filterMap (fkItemOf TK t))).filter
        (fun it => it.1 = (A, B)) = [] := by
  induction tables with
  | nil => rfl
  | cons t rest ih =>
    rw [List.flatMap_cons, List.filter_append,
      filter_key_block_ne TK t A B (h t (List.mem_cons_self t rest)),
      List.nil_append]
    exact ih (fun t' ht' => h t' (List.mem_cons_of_mem t ht'))

/-- Dropping foreign-key-less tables does not change the fk rows: such tables
contribute no row anyway. -/
theorem fkItems_eq_flatMap_aux (tables : List TableSchema) (TK : List String) :
    (tables.filter (fun t => !t.foreign_keys.isEmpty)).flatMap
        (fun t => t.foreign_keys.filterMap (fkItemOf TK t))
      = tables.flatMap (fun t => t.foreign_keys.filterMap (fkItemOf TK t)) := by
  induction tables with
  | nil => rfl
  | cons t rest ih =>
    rw [List.filter_cons, List.flatMap_cons]
    by_cases he : t.foreign_keys.isEmpty
    · rw [if_neg (by simp [he]), List.isEmpty_iff.mp he]
      simpa using ih
    · rw [if_pos (by simp [he]), List.flatMap_cons, ih]

theorem filter_key_tables (TK : List String) (tables : List TableSchema)
    (T : TableSchema) (B : String)
    (hmem : T ∈ tables)
    (hnodup : (tables.map (fun t => t.table_name)).Nodup)
    (hA : T.table_name ∈ TK) (hB : B ∈ TK) :
    (tables.flatMap (fun t => t.foreign_keys.filterMap (fkItemOf TK t))).filter
        (fun it => it.1 = (T.table_name, B))
      = (T.foreign_keys.filter (fun fk => fk.referred_table = B)).map
          (fun fk => ((T.table_name, B), fkPropsOf fk)) := by
  induction tables with
  | nil => cases hmem
  | cons t rest ih =>
    rw [List.map_cons, List.nodup_cons] at hnodup
    rw [List.flatMap_cons, List.filter_append]
    rcases List.mem_cons.mp hmem with heq | hmem'
    · subst heq
      rw [filter_key_fkItemOf TK T B T.foreign_keys hA hB]
      have hrest : (rest.flatMap
          (fun t => t.foreign_keys.filterMap (fkItemOf TK t))).filter
            (fun it => it.1 = (T.table_name, B)) = [] := by
        refine filter_key_blocks_ne TK rest T.table_name B ?_
        intro t' ht' he
        exact hnodup.1 (he ▸ List.mem_map_of_mem _ ht')
      rw [hrest, List.append_nil]
    · have hne : t.table_name ≠ T.table_name := by
        intro he
        exact hnodup.1 (he ▸ List.mem_map_of_mem _ hmem')
      rw [filter_key_block_ne TK t T.table_name B hne, List.nil_append]
      exact ih hmem' hnodup.2

/-- The `EXPLICIT_FK_TO` store of a clean load, in merge-fold form. -/
theorem load_schema_clean_fkEdges (s : DatabaseSchema) (gr : GraphState) :
    (load_schema s true gr).fkEdges
      = foldMerge fkOnMatch id
          (fkItems s (akeys (createAllNodes s emptyGraph).tableNodes)) [] := rfl

/-- Every table of the schema has its `:Table` node after `createAllNodes`. -/
theorem table_name_mem_keys (s : DatabaseSchema) (T : TableSchema)
    (hmem : T ∈ s.tables) (g : GraphState) :
    T.table_name ∈ akeys (createAllNodes s g).tableNodes := by
  have hit : (T.table_name, tablePropsOf T) ∈ tableItems s :=
    List.mem_map_of_mem _ hmem
  exact mem_akeys_foldMerge _ _ _ _ _ hit

/-- **C10.** For every ordered pair of tables, a clean `load_schema` creates
at most one `EXPLICIT_FK_TO` edge per pair; and for a table `T` whose foreign
keys referring to table `B` are `fk1, …, fkn` (first `fk1`, last `fkn`), the
single `(T, B)` edge carries `fk1`'s `constrained_columns` and
`referred_columns` (set only `ON CREATE`) and `fkn`'s `on_update` and
`on_delete` (overwritten by each later foreign key `ON MATCH`) — so the later
foreign keys' column lists are never persisted. -/
theorem C10_fk_edge_per_pair (s : DatabaseSchema) (gr : GraphState)
    (T : TableSchema) (B : String) (fk1 fk2 : ForeignKeySchema)
    (hmem : T ∈ s.tables)
    (hnodup : (s.tables.map (fun t => t.table_name)).Nodup)
    (hBname : B ∈ s.tables.map (fun t => t.table_name))
    (hfirst : (T.foreign_keys.filter (fun fk => fk.referred_table = B)).head?
        = some fk1)
    (hlast : (T.foreign_keys.filter (fun fk => fk.referred_table = B)).getLast?
        = some fk2) :
    (∀ q : String × String, countKey q (load_schema s true gr).fkEdges ≤ 1) ∧
    alookup (T.table_name, B) (load_schema s true gr).fkEdges
      = some ⟨fk1.constrained_columns, fk1.referred_columns,
              fk2.on_update, fk2.on_delete⟩ := by
  have hA : T.table_name ∈ akeys (createAllNodes s emptyGraph).tableNodes :=
    table_name_mem_keys s T hmem emptyGraph
  have hB : B ∈ akeys (createAllNodes s emptyGraph).tableNodes := by
    obtain ⟨Tb, hTb, hname⟩ := List.mem_map.mp hBname
    exact hname ▸ table_name_mem_keys s Tb hTb emptyGraph
  constructor
  · intro q
    rw [load_schema_clean_fkEdges]
    exact countKey_le_one_of_nodup q _
      (akeys_nodup_foldMerge _ _ _ _ (by simp [akeys]))
  · rw [load_schema_clean_fkEdges]
    have hkey : (fkItems s (akeys (createAllNodes s emptyGraph).tableNodes)).filter
        (fun it => it.1 = (T.table_name, B))
          = (T.foreign_keys.filter (fun fk => fk.referred_table = B)).map
              (fun fk => ((T.table_name, B), fkPropsOf fk)) := by
      unfold fkItems
      rw [fkItems_eq_flatMap_aux]
      exact filter_key_tables _ s.tables T B hmem hnodup hA hB
    have hf : alookup (T.table_name, B)
        (fkItems s (akeys (createAllNodes s emptyGraph).tableNodes))
          = some (fkPropsOf fk1) := by
      rw [alookup_eq_head_filter, hkey, List.head?_map, hfirst]
      rfl
    have hg : alookup (T.table_name, B)
        (fkItems s (akeys (createAllNodes s emptyGraph).tableNodes)).reverse
          = some (fkPropsOf fk2) := by
      rw [alookup_reverse_eq_getLast_filter, hkey, List.getLast?_map, hlast]
      rfl
    rw [foldMerge_fk_alookup_absent _ _ _ _ _ (by simp [akeys]) hf hg]
    rfl

/-- Witness for C10: a schema where `orders` declares two foreign keys to
`users` with different column lists and actions. -/
theorem C10_fk_edge_per_pair_witness :
    ordersTableFixture ∈ fkFixtureSchema.tables ∧
    (fkFixtureSchema.tables.map (fun t => t.table_name)).Nodup ∧
    "users" ∈ fkFixtureSchema.tables.map (fun t => t.table_name) ∧
    (ordersTableFixture.foreign_keys.filter
        (fun fk => fk.referred_table = "users")).head?
      = some ⟨["buyer_id"], "public", "users", ["id"], some "CASCADE", some "CASCADE"⟩ ∧
    (ordersTableFixture.foreign_keys.filter
        (fun fk => fk.referred_table = "users")).getLast?
      = some ⟨["seller_id"], "public", "users", ["id"], none, some "SET NULL"⟩ ∧
    countKey ("orders", "users")
        (load_schema fkFixtureSchema true emptyGraph).fkEdges ≤ 1 ∧
    alookup ("orders", "users") (load_schema fkFixtureSchema true emptyGraph).fkEdges
      = some ⟨["buyer_id"], ["id"], none, some "SET NULL"⟩ := by
  refine ⟨by decide, by decide, by decide, by decide, by decide, ?_, ?_⟩
  · exact (C10_fk_edge_per_pair fkFixtureSchema emptyGraph ordersTableFixture "users"
      ⟨["buyer_id"], "public", "users", ["id"], some "CASCADE", some "CASCADE"⟩
      ⟨["seller_id"], "public", "users", ["id"], none, some "SET NULL"⟩
      (by decide) (by decide) (by decide) (by decide) (by decide)).1 ("orders", "users")
  · exact (C10_fk_edge_per_pair fkFixtureSchema emptyGraph ordersTableFixture "users"
      ⟨["buyer_id"], "public", "users", ["id"], some "CASCADE", some "CASCADE"⟩
      ⟨["seller_id"], "public", "users", ["id"], none, some "SET NULL"⟩
      (by decide) (by decide) (by decide) (by decide) (by decide)).2

end Prometheus
